import Mathlib

/-!
Callsign lookup: bulk reconciliation importer and lookup responder.

A shallow embedding of `callsign_lookup.go`.

* Go maps used as sets (`existing`, `processed`, `duplicates`) are `Finset`s; the
  column map `map[string]int` is a function into `Option Nat`, and reading a
  missing entry gives Go's zero value `0`.
* `record[i]` on a slice is `record[i]?`; `none` is the run-time index fault.
* The library functions `strings.ToUpper`, `strings.ToLower`, `strings.TrimSpace`
  are parameters (`StringsPkg`): nothing below depends on what they compute.
  `strconv.Atoi` is written out after the library source, because the importer
  stores the value it returns.
* The datastore is an in-memory association list keyed by `Key`; outcomes the
  environment decides (which puts are rejected, how the write pool is scheduled)
  are fields of `Env`. Puts are atomic, so a run of the pool is one order of the
  puts; every order of the queued Members is the order of some schedule.
* `update` is modelled from the point where the user is signed in, the file is
  present, the key scan has succeeded and the CSV reader yields the header row,
  the data rows and then `io.EOF`.
-/

set_option autoImplicit false

namespace CallsignLookup

/-! ## Record schema -/

/-- The `Member` struct. -/
structure Member where
  Callsign : String
  LastName : String
  Name : String
  Street : String
  City : String
  State : String
  Zip : String
  League : String
  HomeRepeater : String
  DateJoined : String
  MemberType : String
  Status : String
  QuarterExpiring : Int
  YearExpiring : Int
  deriving DecidableEq, Repr

/-- The zero value of `Member` (`var member Member`). -/
def Member.zero : Member :=
  ⟨"", "", "", "", "", "", "", "", "", "", "", "", 0, 0⟩

def CALL_HEADER : String := "CALL"
def LAST_NAME_HEADER : String := "LASTNAME"
def NAME_HEADER : String := "NAME"
def STREET_HEADER : String := "STREET"
def CITY_HEADER : String := "CITY"
def STATE_HEADER : String := "STATE"
def ZIP_HEADER : String := "ZIP"
def HOME_PHONE_HEADER : String := "HOMEPHONE"
def LEAGUE_HEADER : String := "LEAGUE"
def HOME_REPEATER_HEADER : String := "HOMERPT"
def DATE_JOINED_HEADER : String := "DATEJOIN"
def MEMBER_TYPE_HEADER : String := "MEMTYPE"
def STATUS_HEADER : String := "STATUS"
def QUARTER_EXPIRING_HEADER : String := "QTREXP"
def YEAR_EXPIRING_HEADER : String := "YEAREXP"
def EMAIL_HEADER : String := "EMAIL"

/-- The key set of the package-level map `columnNames` (its values are never read). -/
def columnNames : List String :=
  [CALL_HEADER, LAST_NAME_HEADER, NAME_HEADER, STREET_HEADER, CITY_HEADER, STATE_HEADER,
   ZIP_HEADER, HOME_PHONE_HEADER, LEAGUE_HEADER, HOME_REPEATER_HEADER, DATE_JOINED_HEADER,
   MEMBER_TYPE_HEADER, STATUS_HEADER, QUARTER_EXPIRING_HEADER, YEAR_EXPIRING_HEADER,
   EMAIL_HEADER]

def NUM_WRITERS : Nat := 50

/-! ## Library functions -/

/-- The functions of package `strings` that the program calls. -/
structure StringsPkg where
  ToUpper : String → String
  ToLower : String → String
  TrimSpace : String → String

/-- Width of Go's `int` on the target. -/
def intSize : Nat := 64

/-- The two errors of `strconv`: `ErrSyntax` and `ErrRange`. -/
inductive NumError
  | malformed
  | outOfRange
  deriving DecidableEq, Repr

/-- The largest `uint64`. -/
def maxUint64 : Nat := 2 ^ 64 - 1

/-- The loop of `strconv.ParseUint` in base 10 for the width of `int`, with `n` the
value read so far. A character that is not a decimal digit ends it with `0` and
`ErrSyntax`; the first digit that makes the value overflow ends it with the
largest value and `ErrRange`, whatever follows that digit. -/
def parseUintLoop : List Char → Nat → Nat × Option NumError
  | [], n => (n, none)
  | c :: cs, n =>
    if 48 ≤ c.toNat ∧ c.toNat ≤ 57 then
      if maxUint64 / 10 + 1 ≤ n then (2 ^ intSize - 1, some NumError.outOfRange)
      else if maxUint64 < n * 10 + (c.toNat - 48) ∨
          2 ^ intSize - 1 < n * 10 + (c.toNat - 48) then
        (2 ^ intSize - 1, some NumError.outOfRange)
      else parseUintLoop cs (n * 10 + (c.toNat - 48))
    else (0, some NumError.malformed)

/-- Function `strconv.ParseUint` in base 10 for the width of `int`. -/
def ParseUint (s : List Char) : Nat × Option NumError :=
  if s = [] then (0, some NumError.malformed) else parseUintLoop s 0

/-- Function `strconv.ParseInt` in base 10 for the width of `int`: the sign is
picked off, the rest goes through `ParseUint`, a syntax error is passed on with
the value `0`, and a value outside `int` gives the nearest bound and `ErrRange`. -/
def ParseInt (s : String) : Int × Option NumError :=
  if s.data = [] then (0, some NumError.malformed)
  else if (ParseUint (if s.data.head? = some '+' ∨ s.data.head? = some '-'
      then s.data.tail else s.data)).2 = some NumError.malformed then
    (0, some NumError.malformed)
  else if ¬ (s.data.head? = some '-') ∧
      2 ^ (intSize - 1) ≤ (ParseUint (if s.data.head? = some '+' ∨ s.data.head? = some '-'
        then s.data.tail else s.data)).1 then
    ((2 : Int) ^ (intSize - 1) - 1, some NumError.outOfRange)
  else if s.data.head? = some '-' ∧
      2 ^ (intSize - 1) < (ParseUint (if s.data.head? = some '+' ∨ s.data.head? = some '-'
        then s.data.tail else s.data)).1 then
    (-(2 : Int) ^ (intSize - 1), some NumError.outOfRange)
  else
    (if s.data.head? = some '-' then
        -((ParseUint (if s.data.head? = some '+' ∨ s.data.head? = some '-'
          then s.data.tail else s.data)).1 : Int)
      else ((ParseUint (if s.data.head? = some '+' ∨ s.data.head? = some '-'
          then s.data.tail else s.data)).1 : Int), none)

/-- Function `strconv.Atoi`: the value and the error of `ParseInt(s, 10, 0)`. (The
fast path that later releases take for short strings returns the same results.) -/
def Atoi (s : String) : Int × Option NumError := ParseInt s

/-! ## Column resolver -/

/-- The map `columns` of type `map[string]int`. -/
abbrev ColumnMap := String → Option Nat

/-- The assignment `columns[heading] = i`. -/
def ColumnMap.set (m : ColumnMap) (heading : String) (i : Nat) : ColumnMap :=
  fun k => if k = heading then some i else m k

/-- The read `columns[name]`: a missing entry reads as the zero value. -/
def ColumnMap.at (m : ColumnMap) (name : String) : Nat := (m name).getD 0

/-- The loop `for i, heading := range header`, from offset `i` on. -/
def buildColumnsFrom : Nat → List String → ColumnMap → ColumnMap
  | _, [], m => m
  | i, heading :: rest, m =>
    buildColumnsFrom (i + 1) rest (if heading ∈ columnNames then m.set heading i else m)

/-- The column map built from the header row. -/
def buildColumns (header : List String) : ColumnMap :=
  buildColumnsFrom 0 header (fun _ => none)

/-! ## Building a Member from a data row -/

/-- The expression `record[columns[name]]`; `none` is the index fault. -/
def field (columns : ColumnMap) (record : List String) (name : String) : Option String :=
  record[columns.at name]?

def quarterDiagnostic (callsign raw : String) : String :=
  "<div>Cannot parse " ++ callsign ++ "'s Quarter Expiring as a number: <pre>" ++ raw ++
    "</pre></div>"

def yearDiagnostic (callsign raw : String) : String :=
  "<div>Cannot parse " ++ callsign ++ "'s Year Expiring as a number: <pre>" ++ raw ++
    "</pre></div>"

/-- The header tokens whose column `update` reads, in the order of the reads (the
reads of `HOMEPHONE` and `EMAIL` are commented out in the source). -/
def readHeaders : List String :=
  [CALL_HEADER, LAST_NAME_HEADER, NAME_HEADER, STREET_HEADER, CITY_HEADER, STATE_HEADER,
   ZIP_HEADER, LEAGUE_HEADER, HOME_REPEATER_HEADER, DATE_JOINED_HEADER,
   MEMBER_TYPE_HEADER, STATUS_HEADER, QUARTER_EXPIRING_HEADER, YEAR_EXPIRING_HEADER]

/-- The highest offset the column map holds (`0` when it holds none). -/
def highestMapped (columns : ColumnMap) : Nat :=
  (columnNames.map columns.at).foldr max 0

/-- The reads `record[columns[name]]` for a list of header tokens, in order;
`none` as soon as one of them is out of range. -/
def readFields (columns : ColumnMap) (record : List String) : List String → Option (List String)
  | [] => some []
  | name :: rest =>
    match field columns record name with
    | none => none
    | some v =>
      match readFields columns record rest with
      | none => none
      | some vs => some (v :: vs)

/-- Lines 256 to 279 of `update`: the Member of one data row together with the
diagnostics written while building it; `none` when an index is out of range. -/
def buildMember (S : StringsPkg) (columns : ColumnMap) (record : List String) :
    Option (Member × List String) :=
  match readFields columns record readHeaders with
  | some [call, lastName, name, street, city, state, zip, league, homeRepeater, dateJoined,
      memberType, status, quarterRaw, yearRaw] =>
    some (Member.mk (S.ToUpper (S.TrimSpace call)) (S.TrimSpace lastName) (S.TrimSpace name)
        (S.TrimSpace street) (S.TrimSpace city) (S.TrimSpace state) (S.TrimSpace zip)
        (S.TrimSpace league) (S.TrimSpace homeRepeater) (S.TrimSpace dateJoined)
        (S.TrimSpace memberType) (S.TrimSpace status) (Atoi quarterRaw).1 (Atoi yearRaw).1,
      (if (Atoi quarterRaw).2 ≠ none then
          [quarterDiagnostic (S.ToUpper (S.TrimSpace call)) quarterRaw] else []) ++
      (if (Atoi yearRaw).2 ≠ none then
          [yearDiagnostic (S.ToUpper (S.TrimSpace call)) yearRaw] else []))
  | _ => none

/-! ## An ASCII instance of the string functions, for evaluation -/

def asciiUpper (c : Char) : Char :=
  if 97 ≤ c.toNat ∧ c.toNat ≤ 122 then Char.ofNat (c.toNat - 32) else c

def asciiLower (c : Char) : Char :=
  if 65 ≤ c.toNat ∧ c.toNat ≤ 90 then Char.ofNat (c.toNat + 32) else c

def asciiSpace (c : Char) : Bool :=
  c.toNat = 32 ∨ (9 ≤ c.toNat ∧ c.toNat ≤ 13)

def asciiTrim (l : List Char) : List Char :=
  ((l.dropWhile asciiSpace).reverse.dropWhile asciiSpace).reverse

/-- The string functions restricted to ASCII. -/
def asciiStrings : StringsPkg where
  ToUpper s := ⟨s.data.map asciiUpper⟩
  ToLower s := ⟨s.data.map asciiLower⟩
  TrimSpace s := ⟨asciiTrim s.data⟩

/-! ## The datastore -/

/-- A datastore key of kind `Member` without parent: its string ID and integer ID. -/
structure Key where
  stringID : String
  intID : Nat
  deriving DecidableEq, Repr

/-- The call `datastore.NewKey(c, "Member", callsign, 0, nil)`. Keys are compared
through `Encode()`, which is one-to-one, so a key stands for its encoding. -/
def NewKey (callsign : String) : Key := ⟨callsign, 0⟩

/-- Method `Key.Incomplete`: both IDs are zero. -/
def Key.Incomplete (k : Key) : Bool := k.stringID = "" ∧ k.intID = 0

/-- The entities of kind `Member`, at most one per key. -/
abbrev Store := List (Key × Member)

/-- The keys a keys-only query returns. -/
def Store.keys (s : Store) : Finset Key := (s.map Prod.fst).toFinset

/-- The entity stored under a key, if any. -/
def Store.Get (s : Store) (k : Key) : Option Member :=
  (s.find? (fun e => e.1 = k)).map Prod.snd

/-- Store an entity under a complete key, replacing the one already there. -/
def Store.upsert (s : Store) (k : Key) (m : Member) : Store :=
  (k, m) :: s.filter (fun e => e.1 ≠ k)

/-- An integer ID that no stored key uses. -/
def Store.allocateID (s : Store) : Nat := (s.map (fun e => e.1.intID)).foldr max 0 + 1

/-- A successful `datastore.Put`: an incomplete key is completed with a fresh
integer ID chosen by the datastore, any other key is used as it is. -/
def Store.Put (s : Store) (k : Key) (m : Member) : Store :=
  if k.Incomplete then s.upsert ⟨"", s.allocateID⟩ m else s.upsert k m

/-- A successful `datastore.DeleteMulti`. -/
def Store.DeleteMulti (s : Store) (keys : Finset Key) : Store :=
  s.filter (fun e => e.1 ∉ keys)

/-- The callsigns held by the stored Members. -/
def Store.callsigns (s : Store) : Finset String := (s.map (fun e => e.2.Callsign)).toFinset

/-- Every stored key is complete (the datastore never stores an incomplete key). -/
def Store.Complete (s : Store) : Prop := ∀ k ∈ s.keys, k.Incomplete = false

/-- What the environment decides during one upload. -/
structure Env where
  /-- The error of a rejected put, `none` when the put succeeds. -/
  putErr : Key → Member → Option String
  /-- The error of a rejected bulk delete, `none` when it succeeds. -/
  deleteErr : Finset Key → Option String
  /-- For each writer, in the order their results are received, the Members it
  takes from the queue. -/
  schedule : List Member → List (List Member)

/-- A schedule hands every queued Member to exactly one of the `NUM_WRITERS` writers. -/
def Env.Fair (env : Env) : Prop :=
  ∀ q, (env.schedule q).length = NUM_WRITERS ∧ ((env.schedule q).flatten).Perm q

/-- Every put and the bulk delete succeed. -/
def Env.Reliable (env : Env) : Prop :=
  (∀ k m, env.putErr k m = none) ∧ ∀ ks, env.deleteErr ks = none

/-- The call `datastore.Put` against the store: a rejected put leaves it unchanged. -/
def datastorePut (env : Env) (s : Store) (k : Key) (m : Member) : Store × Option String :=
  match env.putErr k m with
  | some e => (s, some e)
  | none => (s.Put k m, none)

/-- The call `datastore.Get`: `none` when it returns an error, which it does for an
incomplete key and for a key under which nothing is stored. -/
def datastoreGet (s : Store) (k : Key) : Option Member :=
  if k.Incomplete then none else s.Get k

/-! ## The write pool -/

/-- The loop of `write` over the Members one worker receives, for any put
operation `put` acting on a state `σ`; `errors` is the slice built so far. -/
def writeLoop {σ : Type} (put : σ → Key → Member → σ × Option String) :
    σ → List Member → List String → σ × List String
  | s, [], errors => (s, errors)
  | s, member :: rest, errors =>
    writeLoop put (put s (NewKey member.Callsign) member).1 rest
      (match (put s (NewKey member.Callsign) member).2 with
       | some err => errors ++ [err]
       | none => errors)

/-- Function `write`: the state left behind and the error slice sent on `result`. -/
def write {σ : Type} (put : σ → Key → Member → σ × Option String) (s : σ)
    (drained : List Member) : σ × List String :=
  writeLoop put s drained []

/-- The writers of one schedule, one after the other: the state they leave and
the error slice of each, in the order the results are received. -/
def runWriters {σ : Type} (put : σ → Key → Member → σ × Option String) :
    σ → List (List Member) → σ × List (List String)
  | s, [] => (s, [])
  | s, drained :: others =>
    ((runWriters put (write put s drained).1 others).1,
      (write put s drained).2 :: (runWriters put (write put s drained).1 others).2)

/-! ## The ingestion loop of `update` -/

/-- How the loop treats one data row. -/
inductive RowClass
  | added
  | updated
  | duplicate
  deriving DecidableEq, Repr

/-- The variables of the loop at lines 246 to 299. -/
structure Ingest where
  existing : Finset Key
  processed : Finset String
  duplicates : Finset String
  added : Nat
  updated : Nat
  /-- The Members sent on `output`, oldest first. -/
  queue : List Member
  /-- The fragments written to the response, oldest first. -/
  out : List String

/-- The variables when the loop starts. -/
def Ingest.init (existing : Finset Key) : Ingest :=
  ⟨existing, ∅, ∅, 0, 0, [], ["<html><body>"]⟩

/-- Lines 282 to 298: classify the Member of a row and enqueue it unless it is a
duplicate. `diags` are the fragments written while the Member was built. -/
def classify (st : Ingest) (member : Member) (diags : List String) : RowClass × Ingest :=
  if NewKey member.Callsign ∉ st.existing then
    if member.Callsign ∈ st.processed then
      (RowClass.duplicate,
        { st with duplicates := insert member.Callsign st.duplicates
                  out := st.out ++ diags })
    else
      (RowClass.added,
        { st with added := st.added + 1
                  out := st.out ++ diags ++ ["<div>Adding " ++ member.Callsign ++ "</div>"]
                  queue := st.queue ++ [member]
                  processed := insert member.Callsign st.processed
                  existing := st.existing.erase (NewKey member.Callsign) })
  else
    (RowClass.updated,
      { st with updated := st.updated + 1
                out := st.out ++ diags
                queue := st.queue ++ [member]
                processed := insert member.Callsign st.processed
                existing := st.existing.erase (NewKey member.Callsign) })

/-- One iteration of the loop; `none` is the index fault. -/
def processRow (S : StringsPkg) (columns : ColumnMap) (st : Ingest) (record : List String) :
    Option (RowClass × Ingest) :=
  match buildMember S columns record with
  | none => none
  | some (member, diags) => some (classify st member diags)

/-- The loop over the data rows up to `io.EOF`, with the class of every row. -/
def ingest (S : StringsPkg) (columns : ColumnMap) :
    Ingest → List (List String) → Option (List RowClass × Ingest)
  | st, [] => some ([], st)
  | st, record :: rest =>
    match processRow S columns st record with
    | none => none
    | some (c, st1) =>
      match ingest S columns st1 rest with
      | none => none
      | some (cs, st2) => some (c :: cs, st2)

/-! ## The handler `update` -/

/-- The last lines of the report. -/
structure Summary where
  added : Nat
  updated : Nat
  deleted : Nat
  duplicates : Finset String
  deriving DecidableEq

/-- The response of `update` once the CSV has been read. -/
structure Response where
  /-- Fragments written before the deletions, in order. -/
  out : List String
  /-- The keys announced by a "Deleting" line. -/
  deleting : Finset Key
  /-- The final summary, or the message of `http.Error` when the bulk delete failed. -/
  result : Except String Summary

def errorLine (err : String) : String := "<div>Error: " ++ err ++ "</div>"

/-- Handler `update` for a signed-in user and an uploaded CSV with header row
`header` and data rows `rows`, on a store whose key scan succeeds: the store
left behind and the response. `none` is the index fault of a short row. -/
def update (S : StringsPkg) (env : Env) (store : Store) (header : List String)
    (rows : List (List String)) : Option (Store × Response) :=
  match ingest S (buildColumns header) (Ingest.init store.keys) rows with
  | none => none
  | some (_, st) =>
    let written := runWriters (datastorePut env) store (env.schedule st.queue)
    let out := st.out ++ (written.2.flatten).map errorLine
    match env.deleteErr st.existing with
    | some err => some (written.1, ⟨out, st.existing, Except.error err⟩)
    | none =>
      some (written.1.DeleteMulti st.existing,
        ⟨out, st.existing,
          Except.ok ⟨st.added, st.updated, st.existing.card, st.duplicates⟩⟩)

/-! ## The handler `lookup` -/

def lookupNotFoundPage : String :=
  "\n<html>\n\t<body>\n\t\t<div>Not Found.</div>\n\t</body>\n</html>\n"

/-- The encoders `lookup` calls. -/
structure Rendering where
  /-- Function `json.Marshal` on a Member. -/
  Marshal : Member → Except String String
  /-- Method `lookupTemplate.Execute`: the text it writes and its error, if any. -/
  Execute : Member → String × Option String

/-- The form values of a lookup request (an absent parameter reads as ""). -/
structure LookupRequest where
  callsign : String
  format : String
  jsonp : String

/-- What a handler writes to the response. -/
inductive Written
  | body (text : String)
  | httpError (msg : String) (code : Nat)
  deriving DecidableEq, Repr

/-- Handler `lookup`. A failed point get leaves `member` at its zero value. -/
def lookup (S : StringsPkg) (R : Rendering) (store : Store) (req : LookupRequest) :
    List Written :=
  let callsign := S.ToUpper req.callsign
  let format := S.ToLower req.format
  let got := datastoreGet store (NewKey callsign)
  let member := got.getD Member.zero
  if got = none ∧ format ≠ "json" then [Written.body lookupNotFoundPage]
  else if format = "json" then
    match R.Marshal member with
    | Except.error _ => [Written.body lookupNotFoundPage]
    | Except.ok output =>
      if req.jsonp.length > 0 then [Written.body (req.jsonp ++ "(" ++ output ++ ");")]
      else [Written.body output]
  else
    match (R.Execute member).2 with
    | some err => [Written.body (R.Execute member).1, Written.httpError err 500]
    | none => [Written.body (R.Execute member).1]

/-- An environment in which nothing fails and the first writer takes every Member. -/
def quietEnv : Env where
  putErr _ _ := none
  deleteErr _ := none
  schedule q := q :: List.replicate (NUM_WRITERS - 1) []

/-! ## Closed forms used in the statements -/

/-- The trimmed, uppercased callsign of a data row. -/
def rowCallsign (S : StringsPkg) (columns : ColumnMap) (record : List String) : String :=
  S.ToUpper (S.TrimSpace (record.getD (columns.at CALL_HEADER) ""))

/-- The Member of a row whose reads are all in range. -/
def memberOf (S : StringsPkg) (columns : ColumnMap) (record : List String) : Member :=
  let get := fun n => record.getD (columns.at n) ""
  { Callsign := rowCallsign S columns record
    LastName := S.TrimSpace (get LAST_NAME_HEADER)
    Name := S.TrimSpace (get NAME_HEADER)
    Street := S.TrimSpace (get STREET_HEADER)
    City := S.TrimSpace (get CITY_HEADER)
    State := S.TrimSpace (get STATE_HEADER)
    Zip := S.TrimSpace (get ZIP_HEADER)
    League := S.TrimSpace (get LEAGUE_HEADER)
    HomeRepeater := S.TrimSpace (get HOME_REPEATER_HEADER)
    DateJoined := S.TrimSpace (get DATE_JOINED_HEADER)
    MemberType := S.TrimSpace (get MEMBER_TYPE_HEADER)
    Status := S.TrimSpace (get STATUS_HEADER)
    QuarterExpiring := (Atoi (get QUARTER_EXPIRING_HEADER)).1
    YearExpiring := (Atoi (get YEAR_EXPIRING_HEADER)).1 }

/-- The diagnostics of a row whose reads are all in range. -/
def diagnosticsOf (S : StringsPkg) (columns : ColumnMap) (record : List String) :
    List String :=
  let get := fun n => record.getD (columns.at n) ""
  (if (Atoi (get QUARTER_EXPIRING_HEADER)).2 ≠ none then
      [quarterDiagnostic (rowCallsign S columns record) (get QUARTER_EXPIRING_HEADER)]
    else []) ++
  (if (Atoi (get YEAR_EXPIRING_HEADER)).2 ≠ none then
      [yearDiagnostic (rowCallsign S columns record) (get YEAR_EXPIRING_HEADER)]
    else [])

/-- Reorder the columns of a row: column `j` of the result is column `p[j]` of `row`. -/
def reorder (p : List Nat) (row : List String) : List String :=
  p.map (fun i => row.getD i "")

/-- One call of the put operation: the key, the Member and the error returned. -/
abbrev PutCall := Key × Member × Option String

/-- A put operation that also records every call made to it, oldest first. -/
def traced {σ : Type} (put : σ → Key → Member → σ × Option String) :
    σ × List PutCall → Key → Member → (σ × List PutCall) × Option String :=
  fun s k m => (((put s.1 k m).1, s.2 ++ [(k, m, (put s.1 k m).2)]), (put s.1 k m).2)

/-! ## Closed forms of the ingestion loop -/

/-- The loop of `update` on Members that are already built. -/
def classifyAll : Ingest → List (Member × List String) → List RowClass × Ingest
  | st, [] => ([], st)
  | st, (m, d) :: rest =>
    ((classify st m d).1 :: (classifyAll (classify st m d).2 rest).1,
      (classifyAll (classify st m d).2 rest).2)

/-- The Members whose callsign is not in `seen` and not carried by an earlier
Member of the list. -/
def firstOccurrencesFrom (seen : Finset String) : List Member → List Member
  | [] => []
  | m :: ms =>
    if m.Callsign ∈ seen then firstOccurrencesFrom seen ms
    else m :: firstOccurrencesFrom (insert m.Callsign seen) ms

/-- The first Member of each distinct callsign, in order of appearance. -/
def firstOccurrences (ms : List Member) : List Member := firstOccurrencesFrom ∅ ms

/-- The callsigns that occur in two or more entries of a list. -/
def repeated (cs : List String) : Finset String :=
  cs.toFinset.filter (fun c => 2 ≤ cs.count c)

/-- Classification as the specification words it: a row is a duplicate when its
callsign was seen earlier in the batch; otherwise it is an update when its key
is in the index taken at upload start, and an addition when it is not. -/
def specClasses (seen : Finset String) (index : Finset Key) : List String → List RowClass
  | [] => []
  | c :: cs =>
    if c ∈ seen then RowClass.duplicate :: specClasses seen index cs
    else (if NewKey c ∈ index then RowClass.updated else RowClass.added) ::
      specClasses (insert c seen) index cs

/-- No callsign already processed has its key left in the index. -/
def Ingest.Disjoint (st : Ingest) : Prop :=
  ∀ c ∈ st.processed, NewKey c ∉ st.existing

/-- The store after the successful puts of a list of Members, in order. -/
def putAll (s : Store) (ms : List Member) : Store :=
  ms.foldl (fun s m => s.Put (NewKey m.Callsign) m) s

/-- An entity of the store `s0` that none of the Members `done` has replaced. -/
def OldEntry (s0 : Store) (done : List Member) (e : Key × Member) : Prop :=
  e ∈ s0 ∧ ∀ m ∈ done, NewKey m.Callsign ≠ e.1

/-- An entity written for one of the Members `done`: under the key of its callsign,
or under a key with a fresh integer ID when the callsign is empty. -/
def NewEntry (s0 : Store) (done : List Member) (e : Key × Member) : Prop :=
  e.2 ∈ done ∧ e.1.stringID = e.2.Callsign ∧
    (e.1 = NewKey e.2.Callsign ∨ (e.2.Callsign = "" ∧ e.1 ∉ s0.keys))

/-- The keys of an index that no callsign of a list matches. -/
def unmatched (index : Finset Key) (cs : List String) : Finset Key :=
  index.filter (fun k => ∀ c ∈ cs, NewKey c ≠ k)

/-- A store that holds the single Member `K2XYZ`. -/
def exampleStore : Store :=
  [(NewKey "K2XYZ", { Member.zero with Callsign := "K2XYZ" })]

/-- The header row `CALL,NAME,QTREXP,YEAREXP`. -/
def exampleHeader : List String := ["CALL", "NAME", "QTREXP", "YEAREXP"]

/-- The data row `W1ABC,John Doe,4,2024`. -/
def exampleRows : List (List String) := [["W1ABC", "John Doe", "4", "2024"]]

/-- The counts of the final summary line: added, updated, deleted. -/
def Response.counts (r : Response) : Option (Nat × Nat × Nat) :=
  match r.result with
  | Except.ok sum => some (sum.added, sum.updated, sum.deleted)
  | Except.error _ => none

/-! ## The column resolver: lemmas -/

theorem readHeaders_subset : ∀ tok ∈ readHeaders, tok ∈ columnNames := by decide

theorem buildColumnsFrom_of_not_mem (tok : String) :
    ∀ (header : List String) (i : Nat) (m : ColumnMap),
      tok ∉ header ∨ tok ∉ columnNames → buildColumnsFrom i header m tok = m tok := by
  intro header
  induction header with
  | nil => intro i m _; rfl
  | cons heading rest ih =>
    intro i m h
    have hrest : tok ∉ rest ∨ tok ∉ columnNames := by
      rcases h with h | h
      · exact Or.inl (fun hm => h (List.mem_cons_of_mem _ hm))
      · exact Or.inr h
    rw [buildColumnsFrom, ih _ _ hrest]
    by_cases hc : heading ∈ columnNames
    · have hne : tok ≠ heading := by
        rcases h with h | h
        · exact fun e => h (e ▸ List.mem_cons_self _ _)
        · exact fun e => h (e ▸ hc)
      simp [hc, ColumnMap.set, hne]
    · simp [hc]

theorem buildColumnsFrom_last (tok : String) (htok : tok ∈ columnNames) :
    ∀ (header : List String) (i : Nat) (m : ColumnMap) (j : Nat),
      header[j]? = some tok → (∀ j2, j < j2 → header[j2]? ≠ some tok) →
      buildColumnsFrom i header m tok = some (i + j) := by
  intro header
  induction header with
  | nil => intro i m j hj; simp at hj
  | cons heading rest ih =>
    intro i m j hj hlast
    cases j with
    | zero =>
      simp at hj
      subst hj
      have hnot : heading ∉ rest := by
        intro hm
        obtain ⟨n, hn, hget⟩ := List.getElem_of_mem hm
        exact hlast (n + 1) (Nat.succ_pos n) (by simp [List.getElem?_eq_getElem hn, hget])
      rw [buildColumnsFrom, buildColumnsFrom_of_not_mem _ _ _ _ (Or.inl hnot)]
      simp [htok, ColumnMap.set]
    | succ j0 =>
      simp at hj
      have h2 : ∀ j2, j0 < j2 → rest[j2]? ≠ some tok := by
        intro j2 hlt
        have := hlast (j2 + 1) (Nat.succ_lt_succ hlt)
        simpa using this
      rw [buildColumnsFrom, ih _ _ j0 hj h2]
      congr 1
      omega

/-- A token that is not in the header, or not a recognised one, gets no entry. -/
theorem buildColumns_eq_none (header : List String) (tok : String)
    (h : tok ∉ header ∨ tok ∉ columnNames) : buildColumns header tok = none :=
  buildColumnsFrom_of_not_mem tok header 0 _ h

/-- A recognised token is mapped to the offset of its last occurrence. -/
theorem buildColumns_last (header : List String) (tok : String) (htok : tok ∈ columnNames)
    (j : Nat) (hj : header[j]? = some tok) (hlast : ∀ j2, j < j2 → header[j2]? ≠ some tok) :
    buildColumns header tok = some j := by
  have := buildColumnsFrom_last tok htok header 0 (fun _ => none) j hj hlast
  simpa [buildColumns] using this

theorem le_foldr_max (l : List Nat) : ∀ x ∈ l, x ≤ l.foldr max 0 := by
  induction l with
  | nil => intro x hx; simp at hx
  | cons a t ih =>
    intro x hx
    rcases List.mem_cons.mp hx with h | h
    · subst h; simp
    · have := ih x h
      simp only [List.foldr_cons]
      exact le_trans this (le_max_right _ _)

theorem at_le_highestMapped (columns : ColumnMap) (tok : String) (h : tok ∈ columnNames) :
    columns.at tok ≤ highestMapped columns :=
  le_foldr_max _ _ (List.mem_map_of_mem _ h)

/-! ## Building a Member: lemmas -/

theorem readFields_eq_none_iff (columns : ColumnMap) (record : List String) :
    ∀ names : List String,
      readFields columns record names = none ↔ ∃ n ∈ names, field columns record n = none := by
  intro names
  induction names with
  | nil => simp [readFields]
  | cons n rest ih =>
    rw [readFields]
    cases hf : field columns record n with
    | none => simp [hf]
    | some v =>
      cases hr : readFields columns record rest with
      | none =>
        have := ih.mp hr
        simp [hf, this]
      | some vs =>
        have hno : ¬ ∃ n ∈ rest, field columns record n = none := fun h => by
          have := ih.mpr h
          simp [hr] at this
        simp only [List.mem_cons, false_iff, reduceCtorEq]
        rintro ⟨n2, hn2 | hn2, hnone⟩
        · subst hn2; simp [hf] at hnone
        · exact hno ⟨n2, hn2, hnone⟩

theorem readFields_eq_some (columns : ColumnMap) (record : List String) :
    ∀ (names vs : List String), readFields columns record names = some vs →
      vs = names.map (fun n => record.getD (columns.at n) "") := by
  intro names
  induction names with
  | nil => intro vs h; simp [readFields] at h; simp [h]
  | cons n rest ih =>
    intro vs h
    rw [readFields] at h
    cases hf : field columns record n with
    | none => simp [hf] at h
    | some v =>
      cases hr : readFields columns record rest with
      | none => simp [hf, hr] at h
      | some ws =>
        simp [hf, hr] at h
        subst h
        have hv : record[columns.at n]?.getD "" = v := by
          unfold field at hf
          simp [hf]
        have hws := ih ws hr
        simp only [List.map_cons, List.getD_eq_getElem?_getD, hv]
        rw [hws]
        simp

theorem field_eq_none_iff (columns : ColumnMap) (record : List String) (n : String) :
    field columns record n = none ↔ record.length ≤ columns.at n := by
  unfold field
  simp

theorem buildMember_eq (S : StringsPkg) (columns : ColumnMap) (record : List String) :
    buildMember S columns record =
      if ∃ n ∈ readHeaders, record.length ≤ columns.at n then none
      else some (memberOf S columns record, diagnosticsOf S columns record) := by
  unfold buildMember
  cases hr : readFields columns record readHeaders with
  | none =>
    have := (readFields_eq_none_iff columns record readHeaders).mp hr
    simp only [field_eq_none_iff] at this
    simp [this]
  | some vs =>
    have hno : ¬ ∃ n ∈ readHeaders, record.length ≤ columns.at n := by
      intro h
      have h2 : ∃ n ∈ readHeaders, field columns record n = none := by
        obtain ⟨n, hn, hl⟩ := h
        exact ⟨n, hn, (field_eq_none_iff _ _ _).mpr hl⟩
      have := (readFields_eq_none_iff columns record readHeaders).mpr h2
      simp [hr] at this
    have hvs := readFields_eq_some columns record readHeaders vs hr
    subst hvs
    rw [if_neg hno]
    rfl

theorem buildMember_eq_none_iff (S : StringsPkg) (columns : ColumnMap)
    (record : List String) :
    buildMember S columns record = none ↔ ∃ n ∈ readHeaders, record.length ≤ columns.at n := by
  rw [buildMember_eq]
  by_cases h : ∃ n ∈ readHeaders, record.length ≤ columns.at n <;> simp [h]

theorem buildMember_eq_some (S : StringsPkg) (columns : ColumnMap) (record : List String)
    (member : Member) (diags : List String)
    (h : buildMember S columns record = some (member, diags)) :
    member = memberOf S columns record ∧ diags = diagnosticsOf S columns record := by
  rw [buildMember_eq] at h
  by_cases hc : ∃ n ∈ readHeaders, record.length ≤ columns.at n
  · simp [hc] at h
  · simp [hc] at h
    exact ⟨h.1.symm, h.2.symm⟩

/-- Reading the column of a token without entry reads offset `0` of the row. -/
theorem field_of_unmapped (columns : ColumnMap) (record : List String) (tok : String)
    (h : columns tok = none) : field columns record tok = record[0]? := by
  simp [field, ColumnMap.at, h]

/-- C6 (counterexample): with header `ZIP,CALL` the column map has no entry for
`LASTNAME` nor for `QTREXP`, yet the Member built from the row `12345,w1abc` has
last name `12345` and quarter-expiring `12345`, the content of column 0, not the
empty string and zero; no diagnostic is written. -/
theorem unmapped_field_reads_offset_zero :
    buildColumns ["ZIP", "CALL"] LAST_NAME_HEADER = none ∧
    buildColumns ["ZIP", "CALL"] QUARTER_EXPIRING_HEADER = none ∧
    (buildMember asciiStrings (buildColumns ["ZIP", "CALL"]) ["12345", "w1abc"]).map
      (fun r => (r.1.Callsign, r.1.LastName, r.1.QuarterExpiring, r.2)) =
      some ("W1ABC", "12345", 12345, []) := by
  decide

/-- C6 (amended): for a header that lacks a header token and any data row, the column
map has no entry for the token, and tokens outside the recognised set never get
an entry; the read of the token's column is the read of offset 0 of the row, so
the Member built from the row holds, in the field of that token, the trimmed
(for the callsign also uppercased) first field of the row, or for an integer
field the value `Atoi` returns for the first field; and no fault is raised when
the row is not empty and has a field at every mapped offset that is read. -/
theorem unmapped_column (S : StringsPkg) (header record : List String) (tok : String)
    (hmiss : tok ∉ header) :
    buildColumns header tok = none ∧
    (∀ other, other ∉ columnNames → buildColumns header other = none) ∧
    field (buildColumns header) record tok = record[0]? ∧
    (0 < record.length →
      (∀ t ∈ readHeaders, ∀ i, buildColumns header t = some i → i < record.length) →
      (buildMember S (buildColumns header) record).isSome = true) ∧
    (∀ member diags, buildMember S (buildColumns header) record = some (member, diags) →
      (tok = CALL_HEADER → member.Callsign = S.ToUpper (S.TrimSpace (record.getD 0 ""))) ∧
      (tok = LAST_NAME_HEADER → member.LastName = S.TrimSpace (record.getD 0 "")) ∧
      (tok = NAME_HEADER → member.Name = S.TrimSpace (record.getD 0 "")) ∧
      (tok = STREET_HEADER → member.Street = S.TrimSpace (record.getD 0 "")) ∧
      (tok = CITY_HEADER → member.City = S.TrimSpace (record.getD 0 "")) ∧
      (tok = STATE_HEADER → member.State = S.TrimSpace (record.getD 0 "")) ∧
      (tok = ZIP_HEADER → member.Zip = S.TrimSpace (record.getD 0 "")) ∧
      (tok = LEAGUE_HEADER → member.League = S.TrimSpace (record.getD 0 "")) ∧
      (tok = HOME_REPEATER_HEADER → member.HomeRepeater = S.TrimSpace (record.getD 0 "")) ∧
      (tok = DATE_JOINED_HEADER → member.DateJoined = S.TrimSpace (record.getD 0 "")) ∧
      (tok = MEMBER_TYPE_HEADER → member.MemberType = S.TrimSpace (record.getD 0 "")) ∧
      (tok = STATUS_HEADER → member.Status = S.TrimSpace (record.getD 0 "")) ∧
      (tok = QUARTER_EXPIRING_HEADER → member.QuarterExpiring = (Atoi (record.getD 0 "")).1) ∧
      (tok = YEAR_EXPIRING_HEADER → member.YearExpiring = (Atoi (record.getD 0 "")).1)) := by
  have hnone : buildColumns header tok = none := buildColumns_eq_none header tok (Or.inl hmiss)
  refine ⟨hnone, fun other h => buildColumns_eq_none header other (Or.inr h),
    field_of_unmapped _ record tok hnone, ?_, ?_⟩
  · intro hpos hall
    cases hb : buildMember S (buildColumns header) record with
    | some r => rfl
    | none =>
      obtain ⟨t, ht, hle⟩ := (buildMember_eq_none_iff S _ record).mp hb
      cases hc : buildColumns header t with
      | none =>
        simp only [ColumnMap.at, hc, Option.getD_none] at hle
        omega
      | some i =>
        have := hall t ht i hc
        simp only [ColumnMap.at, hc, Option.getD_some] at hle
        omega
  · intro member diags h
    obtain ⟨hm, _⟩ := buildMember_eq_some S _ record member diags h
    refine ⟨?_, ?_, ?_, ?_, ?_, ?_, ?_, ?_, ?_, ?_, ?_, ?_, ?_, ?_⟩
    · intro e; subst e; rw [hm]; simp [memberOf, rowCallsign, ColumnMap.at, hnone]
    · intro e; subst e; rw [hm]; simp [memberOf, rowCallsign, ColumnMap.at, hnone]
    · intro e; subst e; rw [hm]; simp [memberOf, rowCallsign, ColumnMap.at, hnone]
    · intro e; subst e; rw [hm]; simp [memberOf, rowCallsign, ColumnMap.at, hnone]
    · intro e; subst e; rw [hm]; simp [memberOf, rowCallsign, ColumnMap.at, hnone]
    · intro e; subst e; rw [hm]; simp [memberOf, rowCallsign, ColumnMap.at, hnone]
    · intro e; subst e; rw [hm]; simp [memberOf, rowCallsign, ColumnMap.at, hnone]
    · intro e; subst e; rw [hm]; simp [memberOf, rowCallsign, ColumnMap.at, hnone]
    · intro e; subst e; rw [hm]; simp [memberOf, rowCallsign, ColumnMap.at, hnone]
    · intro e; subst e; rw [hm]; simp [memberOf, rowCallsign, ColumnMap.at, hnone]
    · intro e; subst e; rw [hm]; simp [memberOf, rowCallsign, ColumnMap.at, hnone]
    · intro e; subst e; rw [hm]; simp [memberOf, rowCallsign, ColumnMap.at, hnone]
    · intro e; subst e; rw [hm]; simp [memberOf, rowCallsign, ColumnMap.at, hnone]
    · intro e; subst e; rw [hm]; simp [memberOf, rowCallsign, ColumnMap.at, hnone]

/-- C6 (amended), at header `ZIP,CALL`, which lacks `LASTNAME`. -/
theorem unmapped_column_witness :
    buildColumns ["ZIP", "CALL"] LAST_NAME_HEADER = none ∧
    field (buildColumns ["ZIP", "CALL"]) ["12345", "w1abc"] LAST_NAME_HEADER =
      ["12345", "w1abc"][0]? :=
  ⟨(unmapped_column asciiStrings ["ZIP", "CALL"] ["12345", "w1abc"] LAST_NAME_HEADER
      (by decide)).1,
   (unmapped_column asciiStrings ["ZIP", "CALL"] ["12345", "w1abc"] LAST_NAME_HEADER
      (by decide)).2.2.1⟩

/-- C10 (counterexample): with header `CALL,EMAIL` the highest mapped offset is 1, the
row `w1abc` has a single field, and the Member is built without index fault. -/
theorem short_row_without_fault :
    highestMapped (buildColumns ["CALL", "EMAIL"]) = 1 ∧
    ["w1abc"].length ≤ highestMapped (buildColumns ["CALL", "EMAIL"]) ∧
    (buildMember asciiStrings (buildColumns ["CALL", "EMAIL"]) ["w1abc"]).isSome = true := by
  decide

/-- C10 (amended): building the Member of a row completes when the row has more
fields than the highest mapped offset, and it faults exactly when the row has no
field at the offset of one of the fourteen header tokens that `update` reads, a
token without entry counting as offset 0. -/
theorem buildMember_fault_iff (S : StringsPkg) (header record : List String) :
    (highestMapped (buildColumns header) < record.length →
        (buildMember S (buildColumns header) record).isSome = true) ∧
    (buildMember S (buildColumns header) record = none ↔
        ∃ tok ∈ readHeaders, record.length ≤ (buildColumns header).at tok) := by
  refine ⟨fun hlt => ?_, buildMember_eq_none_iff S _ record⟩
  cases hb : buildMember S (buildColumns header) record with
  | some r => rfl
  | none =>
    obtain ⟨tok, htok, hle⟩ := (buildMember_eq_none_iff S _ record).mp hb
    have := at_le_highestMapped (buildColumns header) tok (readHeaders_subset tok htok)
    omega

/-- C10 (amended), at header `CALL,EMAIL`: a one-field row is built, an empty row faults. -/
theorem buildMember_fault_iff_witness :
    (buildMember asciiStrings (buildColumns ["CALL", "EMAIL"]) ["a", "b", "c"]).isSome = true ∧
    buildMember asciiStrings (buildColumns ["CALL", "EMAIL"]) [] = none :=
  ⟨(buildMember_fault_iff asciiStrings ["CALL", "EMAIL"] ["a", "b", "c"]).1 (by decide),
   (buildMember_fault_iff asciiStrings ["CALL", "EMAIL"] []).2.mpr
     ⟨CALL_HEADER, by decide, by decide⟩⟩

/-! ## Column reordering -/

theorem index_unique_of_count_eq_one (tok : String) :
    ∀ (l : List String) (i j : Nat), l.count tok = 1 → l[i]? = some tok → l[j]? = some tok →
      i = j := by
  intro l
  induction l with
  | nil => intro i j h; simp at h
  | cons a t ih =>
    intro i j hc hi hj
    rw [List.count_cons] at hc
    have hmem : ∀ k : Nat, t[k]? = some tok → 0 < t.count tok := by
      intro k hk
      exact List.count_pos_iff.mpr (List.getElem?_mem hk)
    cases i with
    | zero =>
      cases j with
      | zero => rfl
      | succ j0 =>
        simp at hi hj
        have := hmem j0 hj
        simp [hi] at hc
        omega
    | succ i0 =>
      cases j with
      | zero =>
        simp at hi hj
        have := hmem i0 hi
        simp [hj] at hc
        omega
      | succ j0 =>
        simp at hi hj
        have hpos := hmem i0 hi
        by_cases hat : a = tok
        · simp [hat] at hc
          omega
        · have hne : (a == tok) = false := by simpa using hat
          simp [hne] at hc
          rw [ih i0 j0 hc hi hj]

theorem memberOf_congr (S : StringsPkg) (c1 c2 : ColumnMap) (r1 r2 : List String)
    (h : ∀ tok ∈ readHeaders, r1.getD (c1.at tok) "" = r2.getD (c2.at tok) "") :
    memberOf S c1 r1 = memberOf S c2 r2 ∧ diagnosticsOf S c1 r1 = diagnosticsOf S c2 r2 := by
  have h1 := h CALL_HEADER (by decide)
  have h2 := h LAST_NAME_HEADER (by decide)
  have h3 := h NAME_HEADER (by decide)
  have h4 := h STREET_HEADER (by decide)
  have h5 := h CITY_HEADER (by decide)
  have h6 := h STATE_HEADER (by decide)
  have h7 := h ZIP_HEADER (by decide)
  have h8 := h LEAGUE_HEADER (by decide)
  have h9 := h HOME_REPEATER_HEADER (by decide)
  have h10 := h DATE_JOINED_HEADER (by decide)
  have h11 := h MEMBER_TYPE_HEADER (by decide)
  have h12 := h STATUS_HEADER (by decide)
  have h13 := h QUARTER_EXPIRING_HEADER (by decide)
  have h14 := h YEAR_EXPIRING_HEADER (by decide)
  simp only [memberOf, diagnosticsOf, rowCallsign, h1, h2, h3, h4, h5, h6, h7, h8, h9, h10,
    h11, h12, h13, h14, and_self]

/-- Where a token that occurs once is mapped, before and after reordering. -/
theorem reorder_lookup (header : List String) (p : List Nat)
    (hp : p.Perm (List.range header.length)) (tok : String) (htok : tok ∈ columnNames)
    (hcount : header.count tok = 1) :
    ∃ i j, buildColumns header tok = some i ∧ buildColumns (reorder p header) tok = some j ∧
      i < header.length ∧ p[j]? = some i := by
  have hmem : tok ∈ header := List.count_pos_iff.mp (by omega)
  obtain ⟨i, hi, hget⟩ := List.getElem_of_mem hmem
  have hi2 : header[i]? = some tok := by simp [List.getElem?_eq_getElem hi, hget]
  have huniq : ∀ k, header[k]? = some tok → k = i := fun k hk =>
    index_unique_of_count_eq_one tok header k i hcount hk hi2
  have hip : i ∈ p := hp.symm.subset (List.mem_range.mpr hi)
  obtain ⟨j, hj, hpj⟩ := List.getElem_of_mem hip
  have hnodup : p.Nodup := hp.symm.nodup (List.nodup_range _)
  have hbound : ∀ k (hk : k < p.length), p[k] < header.length := fun k hk =>
    List.mem_range.mp (hp.subset (List.getElem_mem hk))
  have hre : ∀ k (hk : k < p.length), (reorder p header)[k]? = header[p[k]]? := by
    intro k hk
    have hb := hbound k hk
    simp [reorder, List.getElem?_eq_getElem hk, List.getD_eq_getElem?_getD,
      List.getElem?_eq_getElem hb]
  refine ⟨i, j, ?_, ?_, hi, by simp [List.getElem?_eq_getElem hj, hpj]⟩
  · apply buildColumns_last header tok htok i hi2
    intro j2 hlt hj2
    have := huniq j2 hj2
    omega
  · apply buildColumns_last _ tok htok j
    · rw [hre j hj, hpj]; exact hi2
    · intro j2 hlt hj2
      have hj2len : j2 < p.length := by
        by_contra hge
        have : (reorder p header)[j2]? = none := by
          apply List.getElem?_eq_none
          simp [reorder]; omega
        simp [this] at hj2
      rw [hre j2 hj2len] at hj2
      have h1 : p[j2] = i := huniq _ hj2
      have h2 : p[j2] = p[j] := by rw [h1, hpj]
      have := (List.Nodup.getElem_inj_iff hnodup).mp h2
      omega

/-- C5 (counterexample): with the header `CALL,CALL`, exchanging the two columns
leaves the header as it is and changes the callsign built from the row `a,b`
from `B` to `A`. -/
theorem reorder_changes_member :
    reorder [1, 0] ["CALL", "CALL"] = ["CALL", "CALL"] ∧
    reorder [1, 0] ["a", "b"] = ["b", "a"] ∧
    (buildMember asciiStrings (buildColumns ["CALL", "CALL"]) ["a", "b"]).map
      (fun r => r.1.Callsign) = some "B" ∧
    (buildMember asciiStrings (buildColumns (reorder [1, 0] ["CALL", "CALL"]))
      (reorder [1, 0] ["a", "b"])).map (fun r => r.1.Callsign) = some "A" := by
  decide

/-- C5 (amended): when each of the fourteen header tokens that `update` reads occurs
exactly once in the header and every data row is as long as the header, applying
one permutation of the column positions to the header and to every data row
leaves the Member (and the diagnostics) built from each row unchanged. -/
theorem reorder_preserves_members (S : StringsPkg) (header : List String)
    (rows : List (List String)) (p : List Nat)
    (hp : p.Perm (List.range header.length))
    (hhead : ∀ tok ∈ readHeaders, header.count tok = 1)
    (hrows : ∀ r ∈ rows, r.length = header.length) :
    rows.map (fun r => buildMember S (buildColumns (reorder p header)) (reorder p r)) =
      rows.map (buildMember S (buildColumns header)) := by
  apply List.map_congr_left
  intro r hr
  have hlen := hrows r hr
  have hplen : p.length = header.length := by simpa using hp.length_eq
  have key : ∀ tok ∈ readHeaders,
      (buildColumns (reorder p header)).at tok < (reorder p r).length ∧
      (buildColumns header).at tok < r.length ∧
      (reorder p r).getD ((buildColumns (reorder p header)).at tok) "" =
        r.getD ((buildColumns header).at tok) "" := by
    intro tok htok
    obtain ⟨i, j, h1, h2, hi, hpj⟩ :=
      reorder_lookup header p hp tok (readHeaders_subset tok htok) (hhead tok htok)
    have hj : j < p.length := by
      by_contra hge
      have : p[j]? = none := List.getElem?_eq_none (by omega)
      simp [this] at hpj
    have hpj2 : p[j] = i := by
      rw [List.getElem?_eq_getElem hj] at hpj
      exact Option.some.inj hpj
    have hat1 : (buildColumns header).at tok = i := by simp [ColumnMap.at, h1]
    have hat2 : (buildColumns (reorder p header)).at tok = j := by simp [ColumnMap.at, h2]
    rw [hat1, hat2]
    refine ⟨by simp [reorder, hj], by omega, ?_⟩
    simp [reorder, List.getD_eq_getElem?_getD, List.getElem?_eq_getElem hj, hpj2]
  rw [buildMember_eq, buildMember_eq]
  have hno1 : ¬ ∃ n ∈ readHeaders,
      (reorder p r).length ≤ (buildColumns (reorder p header)).at n := by
    rintro ⟨n, hn, hle⟩
    have := (key n hn).1
    omega
  have hno2 : ¬ ∃ n ∈ readHeaders, r.length ≤ (buildColumns header).at n := by
    rintro ⟨n, hn, hle⟩
    have := (key n hn).2.1
    omega
  rw [if_neg hno1, if_neg hno2]
  have := memberOf_congr S _ _ _ _ (fun tok htok => (key tok htok).2.2)
  rw [this.1, this.2]

/-- C5 (amended), at the canonical header with `CALL` and `LASTNAME` exchanged. -/
theorem reorder_preserves_members_witness :
    [["w1abc", "Doe", "John", "1 Main", "Town", "NH", "03000", "ARRL", "146.52", "2001",
      "Full", "Active", "4", "2024"]].map
      (fun r => buildMember asciiStrings
        (buildColumns (reorder [1, 0, 2, 3, 4, 5, 6, 7, 8, 9, 10, 11, 12, 13] readHeaders))
        (reorder [1, 0, 2, 3, 4, 5, 6, 7, 8, 9, 10, 11, 12, 13] r)) =
    [["w1abc", "Doe", "John", "1 Main", "Town", "NH", "03000", "ARRL", "146.52", "2001",
      "Full", "Active", "4", "2024"]].map (buildMember asciiStrings (buildColumns readHeaders)) :=
  reorder_preserves_members asciiStrings readHeaders _ [1, 0, 2, 3, 4, 5, 6, 7, 8, 9, 10, 11, 12, 13]
    (by decide) (by decide) (by decide)

/-! ## The write worker -/

theorem writeLoop_traced {σ : Type} (put : σ → Key → Member → σ × Option String) :
    ∀ (drained : List Member) (s : σ) (log : List PutCall) (errors : List String),
      errors = log.filterMap (fun c => c.2.2) →
      (writeLoop (traced put) (s, log) drained errors).1.2.map (fun c => (c.1, c.2.1)) =
          log.map (fun c => (c.1, c.2.1)) ++ drained.map (fun m => (NewKey m.Callsign, m)) ∧
      (writeLoop (traced put) (s, log) drained errors).2 =
          (writeLoop (traced put) (s, log) drained errors).1.2.filterMap (fun c => c.2.2) ∧
      writeLoop put s drained errors =
          ((writeLoop (traced put) (s, log) drained errors).1.1,
           (writeLoop (traced put) (s, log) drained errors).2) := by
  intro drained
  induction drained with
  | nil => intro s log errors h; simp [writeLoop, h]
  | cons m rest ih =>
    intro s log errors h
    have hinv : (match (put s (NewKey m.Callsign) m).2 with
          | some err => errors ++ [err]
          | none => errors) =
        (log ++ [(NewKey m.Callsign, m, (put s (NewKey m.Callsign) m).2)]).filterMap
          (fun c => c.2.2) := by
      cases hres : (put s (NewKey m.Callsign) m).2 with
      | none => simp [h, List.filterMap_append]
      | some e => simp [h, List.filterMap_append]
    have := ih (put s (NewKey m.Callsign) m).1
      (log ++ [(NewKey m.Callsign, m, (put s (NewKey m.Callsign) m).2)]) _ hinv
    simp only [writeLoop, traced]
    simp only [traced] at this
    refine ⟨?_, this.2.1, this.2.2⟩
    rw [this.1]
    simp

/-- C9: whatever the put operation does and returns, a worker that receives the
Members `drained` calls it once per Member, in order, with the key built from
that Member's callsign, going on after a failure; the error slice it reports is
exactly the errors of the failed calls in the order of the calls, so it is empty
when every put succeeds; recording the calls does not change what the worker does. -/
theorem write_one_put_per_member {σ : Type} (put : σ → Key → Member → σ × Option String)
    (s : σ) (drained : List Member) :
    (write (traced put) (s, []) drained).1.2.map (fun c => (c.1, c.2.1)) =
        drained.map (fun m => (NewKey m.Callsign, m)) ∧
    (write (traced put) (s, []) drained).2 =
        (write (traced put) (s, []) drained).1.2.filterMap (fun c => c.2.2) ∧
    ((∀ c ∈ (write (traced put) (s, []) drained).1.2, c.2.2 = none) →
        (write (traced put) (s, []) drained).2 = []) ∧
    write put s drained =
        ((write (traced put) (s, []) drained).1.1, (write (traced put) (s, []) drained).2) := by
  have h := writeLoop_traced put drained s [] [] (by simp)
  refine ⟨by simpa [write] using h.1, h.2.1, ?_, h.2.2⟩
  intro hall
  have h2 : (write (traced put) (s, []) drained).2 =
      (write (traced put) (s, []) drained).1.2.filterMap (fun c => c.2.2) := h.2.1
  rw [h2, List.filterMap_eq_nil_iff]
  exact hall

/-- C9, for the datastore in which nothing fails and two Members. -/
theorem write_one_put_per_member_witness :
    (write (traced (datastorePut quietEnv)) ([], [])
        [{ Member.zero with Callsign := "W1ABC" }, { Member.zero with Callsign := "K2XYZ" }]).2 =
      [] :=
  (write_one_put_per_member (datastorePut quietEnv) []
    [{ Member.zero with Callsign := "W1ABC" }, { Member.zero with Callsign := "K2XYZ" }]).2.2.1
    (by decide)

/-! ## The lookup responder -/

/-- C8: `lookup` reads the store through one point get, under the key of the
uppercased callsign parameter. With the format parameter lowercased: when the get
fails and the format is not `json` the response is the not-found page; when the
format is `json` the body is the encoding of the Member found, or of the zero
Member when the get fails, wrapped as `name(json);` exactly when a non-empty
`jsonp` parameter is given; when the Member is found and the format is not `json`
the response is its HTML view. -/
theorem lookup_response (S : StringsPkg) (R : Rendering) (store : Store)
    (req : LookupRequest) :
    (∀ store2 : Store,
        datastoreGet store2 (NewKey (S.ToUpper req.callsign)) =
          datastoreGet store (NewKey (S.ToUpper req.callsign)) →
        lookup S R store2 req = lookup S R store req) ∧
    (S.ToLower req.format ≠ "json" →
        datastoreGet store (NewKey (S.ToUpper req.callsign)) = none →
        lookup S R store req = [Written.body lookupNotFoundPage]) ∧
    (S.ToLower req.format = "json" → ∀ js,
        R.Marshal ((datastoreGet store (NewKey (S.ToUpper req.callsign))).getD Member.zero) =
          Except.ok js →
        lookup S R store req =
          [Written.body (if req.jsonp ≠ "" then req.jsonp ++ "(" ++ js ++ ");" else js)]) ∧
    (S.ToLower req.format ≠ "json" → ∀ m,
        datastoreGet store (NewKey (S.ToUpper req.callsign)) = some m →
        (R.Execute m).2 = none →
        lookup S R store req = [Written.body (R.Execute m).1]) := by
  refine ⟨?_, ?_, ?_, ?_⟩
  · intro store2 h
    simp only [lookup, h]
  · intro hf hg
    simp [lookup, hf, hg]
  · intro hf js hm
    have hlen : req.jsonp.length > 0 ↔ req.jsonp ≠ "" := by
      generalize req.jsonp = j
      rw [gt_iff_lt, String.length, List.length_pos]
      constructor
      · intro h e; apply h; rw [e]
      · intro h e; apply h; exact String.ext e
    by_cases hj : req.jsonp ≠ ""
    · simp [lookup, hf, hm, hj, hlen.mpr hj]
    · have hj2 : ¬ req.jsonp.length > 0 := fun h => hj (hlen.mp h)
      simp only [lookup, hf, hm]
      simp [hj, hj2]
  · intro hf m hg he
    simp [lookup, hf, hg, he]

/-! ## Expiration fields that do not parse -/

theorem ParseInt_cases (s : String) :
    ((ParseInt s).2 = some NumError.malformed → (ParseInt s).1 = 0) ∧
    ((ParseInt s).2 = some NumError.outOfRange →
      (ParseInt s).1 = 2 ^ (intSize - 1) - 1 ∨ (ParseInt s).1 = -(2 ^ (intSize - 1))) := by
  unfold ParseInt
  generalize ParseUint (if s.data.head? = some '+' ∨ s.data.head? = some '-'
    then s.data.tail else s.data) = u
  by_cases h0 : s.data = []
  · simp [h0]
  · rw [if_neg h0]
    by_cases h1 : u.2 = some NumError.malformed
    · simp [h1]
    · rw [if_neg h1]
      by_cases h2 : ¬ (s.data.head? = some '-') ∧ 2 ^ (intSize - 1) ≤ u.1
      · rw [if_pos h2]; simp
      · rw [if_neg h2]
        by_cases h3 : s.data.head? = some '-' ∧ 2 ^ (intSize - 1) < u.1
        · rw [if_pos h3]; simp
        · rw [if_neg h3]; simp

theorem Atoi_malformed (s : String) (h : (Atoi s).2 = some NumError.malformed) :
    (Atoi s).1 = 0 :=
  (ParseInt_cases s).1 h

theorem Atoi_outOfRange (s : String) (h : (Atoi s).2 = some NumError.outOfRange) :
    (Atoi s).1 = 2 ^ (intSize - 1) - 1 ∨ (Atoi s).1 = -(2 ^ (intSize - 1)) :=
  (ParseInt_cases s).2 h

/-- The class of a row and the bookkeeping of the loop depend on the Member only
through its callsign. -/
theorem classify_congr (st : Ingest) (m1 m2 : Member) (d1 d2 : List String)
    (h : m1.Callsign = m2.Callsign) :
    (classify st m1 d1).1 = (classify st m2 d2).1 ∧
    (classify st m1 d1).2.existing = (classify st m2 d2).2.existing ∧
    (classify st m1 d1).2.processed = (classify st m2 d2).2.processed ∧
    (classify st m1 d1).2.duplicates = (classify st m2 d2).2.duplicates ∧
    (classify st m1 d1).2.added = (classify st m2 d2).2.added ∧
    (classify st m1 d1).2.updated = (classify st m2 d2).2.updated := by
  unfold classify
  rw [h]
  by_cases h1 : NewKey m2.Callsign ∉ st.existing
  · by_cases h2 : m2.Callsign ∈ st.processed
    · simp [h1, h2]
    · simp [h1, h2]
  · simp [h1]

/-- A row that is not a duplicate is sent to the writers as built. -/
theorem classify_queue (st : Ingest) (m : Member) (d : List String) :
    (classify st m d).2.queue =
      if (classify st m d).1 = RowClass.duplicate then st.queue else st.queue ++ [m] := by
  unfold classify
  by_cases h1 : NewKey m.Callsign ∉ st.existing
  · by_cases h2 : m.Callsign ∈ st.processed
    · simp [h1, h2]
    · simp [h1, h2]
  · simp [h1]

/-- `Atoi` reports the range error at the first digit that overflows, before it looks
at what follows, and a syntax error at a character met before any overflow. -/
theorem Atoi_overflow_before_garbage :
    Atoi "99999999999999999999x" = (9223372036854775807, some NumError.outOfRange) ∧
    Atoi "9999999999x9999999999" = (0, some NumError.malformed) ∧
    Atoi "-9223372036854775808" = (-9223372036854775808, none) := by
  decide

/-- C7 (counterexample): the quarter field `99999999999999999999` makes `Atoi` return
an error, and the Member is built with quarter-expiring 9223372036854775807, not 0. -/
theorem range_error_keeps_bound :
    (Atoi "99999999999999999999").2 = some NumError.outOfRange ∧
    (buildMember asciiStrings (buildColumns ["CALL", "QTREXP", "YEAREXP"])
      ["w1abc", "99999999999999999999", "2024"]).map (fun r => r.1.QuarterExpiring) =
      some 9223372036854775807 := by
  decide

/-- C7 (amended): for a row that is read without index fault, each expiration field
holds the value `Atoi` returned: 0 when `Atoi` returns a syntax error, the nearest
bound of `int` when it returns a range error. One diagnostic is written for each of
the two fields on which `Atoi` returned an error, the row is then classified and
enqueued by the loop, and its class and the bookkeeping are those of any row
with the same callsign. -/
theorem parse_failure_not_fatal (S : StringsPkg) (columns : ColumnMap) (st : Ingest)
    (record : List String) (member : Member) (diags : List String)
    (h : buildMember S columns record = some (member, diags)) :
    member.QuarterExpiring =
        (Atoi (record.getD (columns.at QUARTER_EXPIRING_HEADER) "")).1 ∧
    member.YearExpiring = (Atoi (record.getD (columns.at YEAR_EXPIRING_HEADER) "")).1 ∧
    ((Atoi (record.getD (columns.at QUARTER_EXPIRING_HEADER) "")).2 =
        some NumError.malformed → member.QuarterExpiring = 0) ∧
    ((Atoi (record.getD (columns.at YEAR_EXPIRING_HEADER) "")).2 =
        some NumError.malformed → member.YearExpiring = 0) ∧
    ((Atoi (record.getD (columns.at QUARTER_EXPIRING_HEADER) "")).2 =
        some NumError.outOfRange →
      member.QuarterExpiring = 2 ^ (intSize - 1) - 1 ∨
        member.QuarterExpiring = -(2 ^ (intSize - 1))) ∧
    ((Atoi (record.getD (columns.at YEAR_EXPIRING_HEADER) "")).2 =
        some NumError.outOfRange →
      member.YearExpiring = 2 ^ (intSize - 1) - 1 ∨
        member.YearExpiring = -(2 ^ (intSize - 1))) ∧
    diags =
      (if (Atoi (record.getD (columns.at QUARTER_EXPIRING_HEADER) "")).2 ≠ none then
          [quarterDiagnostic member.Callsign
            (record.getD (columns.at QUARTER_EXPIRING_HEADER) "")] else []) ++
      (if (Atoi (record.getD (columns.at YEAR_EXPIRING_HEADER) "")).2 ≠ none then
          [yearDiagnostic member.Callsign
            (record.getD (columns.at YEAR_EXPIRING_HEADER) "")] else []) ∧
    processRow S columns st record = some (classify st member diags) ∧
    (classify st member diags).2.queue =
      (if (classify st member diags).1 = RowClass.duplicate then st.queue
        else st.queue ++ [member]) ∧
    (∀ (member2 : Member) (diags2 : List String), member2.Callsign = member.Callsign →
      (classify st member diags).1 = (classify st member2 diags2).1 ∧
      (classify st member diags).2.existing = (classify st member2 diags2).2.existing ∧
      (classify st member diags).2.processed = (classify st member2 diags2).2.processed ∧
      (classify st member diags).2.duplicates = (classify st member2 diags2).2.duplicates ∧
      (classify st member diags).2.added = (classify st member2 diags2).2.added ∧
      (classify st member diags).2.updated = (classify st member2 diags2).2.updated) := by
  obtain ⟨hm, hd⟩ := buildMember_eq_some S columns record member diags h
  have hq : member.QuarterExpiring =
      (Atoi (record.getD (columns.at QUARTER_EXPIRING_HEADER) "")).1 := by rw [hm]; rfl
  have hy : member.YearExpiring =
      (Atoi (record.getD (columns.at YEAR_EXPIRING_HEADER) "")).1 := by rw [hm]; rfl
  have hc : member.Callsign = rowCallsign S columns record := by rw [hm]; rfl
  refine ⟨hq, hy, fun e => hq ▸ Atoi_malformed _ e, fun e => hy ▸ Atoi_malformed _ e,
    fun e => hq ▸ Atoi_outOfRange _ e, fun e => hy ▸ Atoi_outOfRange _ e, ?_, ?_,
    classify_queue st member diags, fun m2 d2 e => classify_congr st member m2 diags d2 e.symm⟩
  · rw [hd, hc]; rfl
  · simp [processRow, h]

/-- C7 (amended), at a row whose quarter field is the text `soon`. -/
theorem parse_failure_not_fatal_witness :
    (processRow asciiStrings (buildColumns ["CALL", "QTREXP", "YEAREXP"]) (Ingest.init ∅)
      ["w1abc", "soon", "2024"]).isSome = true := by
  have h := (parse_failure_not_fatal asciiStrings (buildColumns ["CALL", "QTREXP", "YEAREXP"])
    (Ingest.init ∅) ["w1abc", "soon", "2024"]
    (memberOf asciiStrings (buildColumns ["CALL", "QTREXP", "YEAREXP"]) ["w1abc", "soon", "2024"])
    (diagnosticsOf asciiStrings (buildColumns ["CALL", "QTREXP", "YEAREXP"])
      ["w1abc", "soon", "2024"]) (by decide)).2.2.2.2.2.2.2.1
  rw [h]; rfl

/-! ## The ingestion loop: invariants -/

theorem NewKey_inj (a b : String) : NewKey a = NewKey b ↔ a = b := by
  simp [NewKey]

theorem classify_updated (st : Ingest) (m : Member) (d : List String)
    (h : NewKey m.Callsign ∈ st.existing) :
    (classify st m d).1 = RowClass.updated ∧
    (classify st m d).2.existing = st.existing.erase (NewKey m.Callsign) ∧
    (classify st m d).2.processed = insert m.Callsign st.processed ∧
    (classify st m d).2.duplicates = st.duplicates ∧
    (classify st m d).2.added = st.added ∧
    (classify st m d).2.updated = st.updated + 1 ∧
    (classify st m d).2.queue = st.queue ++ [m] := by
  simp [classify, h]

theorem classify_duplicate (st : Ingest) (m : Member) (d : List String)
    (h1 : NewKey m.Callsign ∉ st.existing) (h2 : m.Callsign ∈ st.processed) :
    (classify st m d).1 = RowClass.duplicate ∧
    (classify st m d).2.existing = st.existing ∧
    (classify st m d).2.processed = st.processed ∧
    (classify st m d).2.duplicates = insert m.Callsign st.duplicates ∧
    (classify st m d).2.added = st.added ∧
    (classify st m d).2.updated = st.updated ∧
    (classify st m d).2.queue = st.queue := by
  simp [classify, h1, h2]

theorem classify_added (st : Ingest) (m : Member) (d : List String)
    (h1 : NewKey m.Callsign ∉ st.existing) (h2 : m.Callsign ∉ st.processed) :
    (classify st m d).1 = RowClass.added ∧
    (classify st m d).2.existing = st.existing ∧
    (classify st m d).2.processed = insert m.Callsign st.processed ∧
    (classify st m d).2.duplicates = st.duplicates ∧
    (classify st m d).2.added = st.added + 1 ∧
    (classify st m d).2.updated = st.updated ∧
    (classify st m d).2.queue = st.queue ++ [m] := by
  simp [classify, h1, h2, Finset.erase_eq_of_not_mem]

theorem specClasses_erase (index : Finset Key) (c : String) :
    ∀ (cs : List String) (seen : Finset String), c ∈ seen →
      specClasses seen (index.erase (NewKey c)) cs = specClasses seen index cs := by
  intro cs
  induction cs with
  | nil => intro seen _; rfl
  | cons x xs ih =>
    intro seen hc
    unfold specClasses
    by_cases hx : x ∈ seen
    · simp only [hx, if_true]
      rw [ih seen hc]
    · have hne : x ≠ c := fun e => hx (e ▸ hc)
      have hk : NewKey x ≠ NewKey c := fun e => hne ((NewKey_inj _ _).mp e)
      simp only [hx, if_false, Finset.mem_erase, hk, ne_eq, not_false_eq_true, true_and]
      rw [ih (insert x seen) (Finset.mem_insert_of_mem hc)]

theorem classifyAll_spec :
    ∀ (ms : List (Member × List String)) (st : Ingest), st.Disjoint →
      (classifyAll st ms).1 =
        specClasses st.processed st.existing (ms.map (fun r => r.1.Callsign)) ∧
      (classifyAll st ms).2.processed =
        st.processed ∪ (ms.map (fun r => r.1.Callsign)).toFinset ∧
      (classifyAll st ms).2.existing =
        st.existing \ (ms.map (fun r => r.1.Callsign)).toFinset.image NewKey ∧
      (classifyAll st ms).2.queue =
        st.queue ++ firstOccurrencesFrom st.processed (ms.map (fun r => r.1)) ∧
      (classifyAll st ms).2.duplicates =
        st.duplicates ∪ (ms.map (fun r => r.1.Callsign)).toFinset.filter
          (fun c => c ∈ st.processed ∨ 2 ≤ (ms.map (fun r => r.1.Callsign)).count c) ∧
      (classifyAll st ms).2.added =
        st.added + ((ms.map (fun r => r.1.Callsign)).toFinset.filter
          (fun c => c ∉ st.processed ∧ NewKey c ∉ st.existing)).card ∧
      (classifyAll st ms).2.updated =
        st.updated + ((ms.map (fun r => r.1.Callsign)).toFinset.filter
          (fun c => NewKey c ∈ st.existing)).card := by
  intro ms
  induction ms with
  | nil => intro st h; simp [classifyAll, specClasses, firstOccurrencesFrom]
  | cons r rest ih =>
    intro st hdis
    obtain ⟨m, d⟩ := r
    simp only [classifyAll, List.map_cons, List.toFinset_cons]
    have hcount : ∀ x : String, List.count x (m.Callsign :: rest.map (fun r => r.1.Callsign)) =
        List.count x (rest.map (fun r => r.1.Callsign)) + if m.Callsign = x then 1 else 0 := by
      intro x; rw [List.count_cons]; simp
    have hpos : ∀ x : String, x ∈ (rest.map (fun r => r.1.Callsign)) ↔
        0 < List.count x (rest.map (fun r => r.1.Callsign)) := fun x => List.count_pos_iff.symm
    by_cases h1 : NewKey m.Callsign ∈ st.existing
    · have h2 : m.Callsign ∉ st.processed := fun hp => hdis _ hp h1
      obtain ⟨f1, f2, f3, f4, f5, f6, f7⟩ := classify_updated st m d h1
      have hdis1 : (classify st m d).2.Disjoint := by
        intro c hc
        rw [f3] at hc; rw [f2]
        simp only [Finset.mem_insert] at hc
        simp only [Finset.mem_erase, not_and]
        rcases hc with hc | hc
        · subst hc; simp
        · intro _; exact hdis c hc
      obtain ⟨i2, i3, i4, i5, i6, i7, i8⟩ := ih _ hdis1
      rw [f2, f3] at i2 i7
      rw [f3] at i3 i5 i6
      rw [f2] at i4 i8
      rw [f7] at i5
      rw [f4] at i6
      rw [f5] at i7
      rw [f6] at i8
      refine ⟨?_, ?_, ?_, ?_, ?_, ?_, ?_⟩
      · rw [f1, i2, specClasses_erase _ _ _ _ (Finset.mem_insert_self _ _)]
        simp [specClasses, h1, h2]
      · rw [i3]; ext x; simp
      · rw [i4]; ext x; simp; tauto
      · rw [i5]; simp [firstOccurrencesFrom, h2]
      · rw [i6]; ext x
        simp only [Finset.mem_union, Finset.mem_filter, List.mem_toFinset, Finset.mem_insert,
          hcount, hpos]
        by_cases hx : m.Callsign = x
        · subst hx; simp [h2]
        · have hx2 : x ≠ m.Callsign := fun e => hx e.symm
          simp [hx, hx2]
      · rw [i7]
        congr 2
        ext x
        simp only [Finset.mem_filter, List.mem_toFinset, Finset.mem_insert, Finset.mem_erase,
          not_or, not_and, ne_eq]
        by_cases hx : x = m.Callsign
        · subst hx; simp [h1]
        · have hk : NewKey x ≠ NewKey m.Callsign := fun e => hx ((NewKey_inj _ _).mp e)
          simp [hx, hk]
      · rw [i8]
        have hset : Finset.filter (fun c => NewKey c ∈ st.existing)
            (insert m.Callsign (rest.map (fun r => r.1.Callsign)).toFinset) =
            insert m.Callsign (Finset.filter
              (fun c => NewKey c ∈ st.existing.erase (NewKey m.Callsign))
              (rest.map (fun r => r.1.Callsign)).toFinset) := by
          ext x
          simp only [Finset.mem_filter, List.mem_toFinset, Finset.mem_insert, Finset.mem_erase,
            ne_eq]
          by_cases hx : x = m.Callsign
          · subst hx; simp [h1]
          · have hk : NewKey x ≠ NewKey m.Callsign := fun e => hx ((NewKey_inj _ _).mp e)
            simp [hx, hk]
        rw [hset, Finset.card_insert_of_not_mem (by simp)]
        omega
    · by_cases h2 : m.Callsign ∈ st.processed
      · obtain ⟨f1, f2, f3, f4, f5, f6, f7⟩ := classify_duplicate st m d h1 h2
        have hdis1 : (classify st m d).2.Disjoint := by
          intro c hc
          rw [f3] at hc; rw [f2]
          exact hdis c hc
        obtain ⟨i2, i3, i4, i5, i6, i7, i8⟩ := ih _ hdis1
        rw [f2, f3] at i2 i7
        rw [f3] at i3 i5 i6
        rw [f2] at i4 i8
        rw [f7] at i5
        rw [f4] at i6
        rw [f5] at i7
        rw [f6] at i8
        refine ⟨?_, ?_, ?_, ?_, ?_, ?_, ?_⟩
        · rw [f1, i2]; simp [specClasses, h2]
        · rw [i3]; ext x; simp only [Finset.mem_union, List.mem_toFinset, Finset.mem_insert]
          constructor
          · tauto
          · rintro (h | h | h)
            · exact Or.inl h
            · exact Or.inl (h ▸ h2)
            · exact Or.inr h
        · rw [i4]; ext x
          simp only [Finset.mem_sdiff, Finset.mem_image, List.mem_toFinset, Finset.mem_insert,
            exists_eq_or_imp, not_or, not_exists, not_and]
          constructor
          · rintro ⟨hx, hn⟩
            refine ⟨hx, ⟨fun e => h1 (e ▸ hx), hn⟩⟩
          · rintro ⟨hx, _, hn⟩
            exact ⟨hx, hn⟩
        · rw [i5]; simp [firstOccurrencesFrom, h2]
        · rw [i6]; ext x
          simp only [Finset.mem_union, Finset.mem_filter, List.mem_toFinset, Finset.mem_insert,
            hcount, hpos]
          by_cases hx : m.Callsign = x
          · subst hx; simp [h2]
          · have hx2 : x ≠ m.Callsign := fun e => hx e.symm
            simp [hx, hx2]
        · rw [i7]
          congr 2
          ext x
          simp only [Finset.mem_filter, List.mem_toFinset, Finset.mem_insert]
          by_cases hx : x = m.Callsign
          · subst hx; simp [h2]
          · simp [hx]
        · rw [i8]
          congr 2
          ext x
          simp only [Finset.mem_filter, List.mem_toFinset, Finset.mem_insert]
          by_cases hx : x = m.Callsign
          · subst hx; simp [h1]
          · simp [hx]
      · obtain ⟨f1, f2, f3, f4, f5, f6, f7⟩ := classify_added st m d h1 h2
        have hdis1 : (classify st m d).2.Disjoint := by
          intro c hc
          rw [f3] at hc; rw [f2]
          simp only [Finset.mem_insert] at hc
          rcases hc with hc | hc
          · subst hc; exact h1
          · exact hdis c hc
        obtain ⟨i2, i3, i4, i5, i6, i7, i8⟩ := ih _ hdis1
        rw [f2, f3] at i2 i7
        rw [f3] at i3 i5 i6
        rw [f2] at i4 i8
        rw [f7] at i5
        rw [f4] at i6
        rw [f5] at i7
        rw [f6] at i8
        refine ⟨?_, ?_, ?_, ?_, ?_, ?_, ?_⟩
        · rw [f1, i2]; simp [specClasses, h1, h2]
        · rw [i3]; ext x; simp
        · rw [i4]; ext x
          simp only [Finset.mem_sdiff, Finset.mem_image, List.mem_toFinset, Finset.mem_insert,
            exists_eq_or_imp, not_or, not_exists, not_and]
          constructor
          · rintro ⟨hx, hn⟩
            refine ⟨hx, ⟨fun e => h1 (e ▸ hx), hn⟩⟩
          · rintro ⟨hx, _, hn⟩
            exact ⟨hx, hn⟩
        · rw [i5]; simp [firstOccurrencesFrom, h2]
        · rw [i6]; ext x
          simp only [Finset.mem_union, Finset.mem_filter, List.mem_toFinset, Finset.mem_insert,
            hcount, hpos]
          by_cases hx : m.Callsign = x
          · subst hx; simp [h2]
          · have hx2 : x ≠ m.Callsign := fun e => hx e.symm
            simp [hx, hx2]
        · rw [i7]
          have hset : Finset.filter (fun c => c ∉ st.processed ∧ NewKey c ∉ st.existing)
              (insert m.Callsign (rest.map (fun r => r.1.Callsign)).toFinset) =
              insert m.Callsign (Finset.filter
                (fun c => c ∉ insert m.Callsign st.processed ∧ NewKey c ∉ st.existing)
                (rest.map (fun r => r.1.Callsign)).toFinset) := by
            ext x
            simp only [Finset.mem_filter, List.mem_toFinset, Finset.mem_insert, not_or]
            by_cases hx : x = m.Callsign
            · subst hx; simp [h1, h2]
            · simp [hx]
          rw [hset, Finset.card_insert_of_not_mem (by simp)]
          omega
        · rw [i8]
          congr 2
          ext x
          simp only [Finset.mem_filter, List.mem_toFinset, Finset.mem_insert]
          by_cases hx : x = m.Callsign
          · subst hx; simp [h1]
          · simp [hx]

theorem ingest_eq (S : StringsPkg) (columns : ColumnMap) :
    ∀ (rows : List (List String)) (st : Ingest),
      ingest S columns st rows =
        if ∃ r ∈ rows, buildMember S columns r = none then none
        else some (classifyAll st
          (rows.map (fun r => (memberOf S columns r, diagnosticsOf S columns r)))) := by
  intro rows
  induction rows with
  | nil => intro st; simp [ingest, classifyAll]
  | cons r rest ih =>
    intro st
    rw [ingest, processRow]
    cases hb : buildMember S columns r with
    | none => simp [hb]
    | some md =>
      obtain ⟨m, d⟩ := md
      obtain ⟨hm, hd⟩ := buildMember_eq_some S columns r m d hb
      subst hm; subst hd
      simp only []
      rw [ih]
      by_cases hex : ∃ r2 ∈ rest, buildMember S columns r2 = none
      · have : ∃ r2 ∈ r :: rest, buildMember S columns r2 = none := by
          obtain ⟨r2, h1, h2⟩ := hex
          exact ⟨r2, List.mem_cons_of_mem _ h1, h2⟩
        simp [hex, this]
      · have : ¬ ∃ r2 ∈ r :: rest, buildMember S columns r2 = none := by
          rintro ⟨r2, h1, h2⟩
          rcases List.mem_cons.mp h1 with e | e
          · subst e; simp [hb] at h2
          · exact hex ⟨r2, e, h2⟩
        rw [if_neg hex, if_neg this]
        simp [classifyAll]

theorem ingest_eq_some (S : StringsPkg) (columns : ColumnMap) (rows : List (List String))
    (st0 : Ingest) (classes : List RowClass) (st : Ingest)
    (h : ingest S columns st0 rows = some (classes, st)) :
    (classes, st) = classifyAll st0
      (rows.map (fun r => (memberOf S columns r, diagnosticsOf S columns r))) := by
  rw [ingest_eq] at h
  by_cases hex : ∃ r ∈ rows, buildMember S columns r = none
  · simp [hex] at h
  · rw [if_neg hex] at h
    exact (Option.some.inj h).symm

theorem classifyAll_length :
    ∀ (ms : List (Member × List String)) (st : Ingest), (classifyAll st ms).1.length = ms.length := by
  intro ms
  induction ms with
  | nil => intro st; rfl
  | cons r rest ih => intro st; obtain ⟨m, d⟩ := r; simp [classifyAll, ih]

theorem classifyAll_queue :
    ∀ (ms : List (Member × List String)) (st : Ingest),
      (classifyAll st ms).2.queue = st.queue ++
        ((ms.zip (classifyAll st ms).1).filter
          (fun p => p.2 ≠ RowClass.duplicate)).map (fun p => p.1.1) := by
  intro ms
  induction ms with
  | nil => intro st; simp [classifyAll]
  | cons r rest ih =>
    intro st
    obtain ⟨m, d⟩ := r
    simp only [classifyAll, List.zip_cons_cons]
    rw [ih, classify_queue]
    by_cases hc : (classify st m d).1 = RowClass.duplicate
    · simp [hc]
    · simp [hc]

theorem specClasses_duplicate_iff (index : Finset Key) :
    ∀ (cs : List String) (seen : Finset String) (i : Nat) (hi : i < cs.length),
      (specClasses seen index cs)[i]? = some RowClass.duplicate ↔
        cs[i] ∈ seen ∨ ∃ j, j < i ∧ cs[j]? = some cs[i] := by
  intro cs
  induction cs with
  | nil => intro seen i hi; simp at hi
  | cons c rest ih =>
    intro seen i hi
    cases i with
    | zero =>
      unfold specClasses
      by_cases hc : c ∈ seen
      · simp [hc]
      · by_cases hk : NewKey c ∈ index <;> simp [hc, hk]
    | succ k =>
      have hk : k < rest.length := by simpa using hi
      unfold specClasses
      by_cases hc : c ∈ seen
      · simp only [hc, if_true, List.getElem?_cons_succ, List.getElem_cons_succ]
        rw [ih seen k hk]
        constructor
        · rintro (h | ⟨j, hj, hj2⟩)
          · exact Or.inl h
          · exact Or.inr ⟨j + 1, by omega, by simpa using hj2⟩
        · rintro (h | ⟨j, hj, hj2⟩)
          · exact Or.inl h
          · cases j with
            | zero =>
              simp at hj2
              exact Or.inl (hj2 ▸ hc)
            | succ j0 => exact Or.inr ⟨j0, by omega, by simpa using hj2⟩
      · simp only [hc, if_false, List.getElem?_cons_succ, List.getElem_cons_succ]
        rw [ih (insert c seen) k hk]
        simp only [Finset.mem_insert]
        constructor
        · rintro ((h | h) | ⟨j, hj, hj2⟩)
          · exact Or.inr ⟨0, by omega, by simp [h]⟩
          · exact Or.inl h
          · exact Or.inr ⟨j + 1, by omega, by simpa using hj2⟩
        · rintro (h | ⟨j, hj, hj2⟩)
          · exact Or.inl (Or.inr h)
          · cases j with
            | zero =>
              simp at hj2
              exact Or.inl (Or.inl hj2.symm)
            | succ j0 => exact Or.inr ⟨j0, by omega, by simpa using hj2⟩

theorem firstOccurrencesFrom_spec :
    ∀ (ms : List Member) (seen : Finset String),
      ((firstOccurrencesFrom seen ms).map (fun m => m.Callsign)).Nodup ∧
      ((firstOccurrencesFrom seen ms).map (fun m => m.Callsign)).toFinset =
        (ms.map (fun m => m.Callsign)).toFinset \ seen ∧
      (∀ m ∈ firstOccurrencesFrom seen ms, m ∈ ms) := by
  intro ms
  induction ms with
  | nil => intro seen; simp [firstOccurrencesFrom]
  | cons m rest ih =>
    intro seen
    unfold firstOccurrencesFrom
    by_cases hc : m.Callsign ∈ seen
    · simp only [hc, if_true]
      obtain ⟨h1, h2, h3⟩ := ih seen
      refine ⟨h1, ?_, fun x hx => List.mem_cons_of_mem _ (h3 x hx)⟩
      rw [h2]; ext x
      simp only [List.map_cons, List.toFinset_cons, Finset.mem_sdiff, Finset.mem_insert,
        List.mem_toFinset]
      constructor
      · rintro ⟨h, hn⟩; exact ⟨Or.inr h, hn⟩
      · rintro ⟨h | h, hn⟩
        · exact absurd (h ▸ hc) hn
        · exact ⟨h, hn⟩
    · simp only [hc, if_false]
      obtain ⟨h1, h2, h3⟩ := ih (insert m.Callsign seen)
      refine ⟨?_, ?_, ?_⟩
      · simp only [List.map_cons, List.nodup_cons]
        refine ⟨?_, h1⟩
        intro hmem
        have : m.Callsign ∈ ((firstOccurrencesFrom (insert m.Callsign seen) rest).map
            (fun m => m.Callsign)).toFinset := List.mem_toFinset.mpr hmem
        rw [h2] at this
        simp at this
      · simp only [List.map_cons, List.toFinset_cons]
        rw [h2]; ext x
        simp only [Finset.mem_sdiff, Finset.mem_insert, List.mem_toFinset, not_or]
        constructor
        · rintro (h | ⟨h, hn1, hn2⟩)
          · subst h; exact ⟨Or.inl rfl, hc⟩
          · exact ⟨Or.inr h, hn2⟩
        · rintro ⟨h | h, hn⟩
          · exact Or.inl h
          · by_cases hx : x = m.Callsign
            · exact Or.inl hx
            · exact Or.inr ⟨h, hx, hn⟩
      · intro x hx
        rcases List.mem_cons.mp hx with e | e
        · subst e; exact List.mem_cons_self _ _
        · exact List.mem_cons_of_mem _ (h3 x e)

theorem Ingest.init_disjoint (index : Finset Key) : (Ingest.init index).Disjoint := by
  intro c hc
  simp [Ingest.init] at hc

theorem Ingest.init_fields (index : Finset Key) :
    (Ingest.init index).existing = index ∧ (Ingest.init index).processed = ∅ ∧
    (Ingest.init index).duplicates = ∅ ∧ (Ingest.init index).added = 0 ∧
    (Ingest.init index).updated = 0 ∧ (Ingest.init index).queue = [] :=
  ⟨rfl, rfl, rfl, rfl, rfl, rfl⟩

/-- The loop runs to the end exactly when no row faults, and then it is the loop on
the Members in closed form. -/
theorem ingest_of_no_fault (S : StringsPkg) (columns : ColumnMap) (rows : List (List String))
    (st : Ingest) (hrows : ∀ r ∈ rows, (buildMember S columns r).isSome = true) :
    ingest S columns st rows = some (classifyAll st
      (rows.map (fun r => (memberOf S columns r, diagnosticsOf S columns r)))) := by
  rw [ingest_eq, if_neg]
  rintro ⟨r, hr, hnone⟩
  have := hrows r hr
  simp [hnone] at this

theorem callsigns_of_built (S : StringsPkg) (columns : ColumnMap) (rows : List (List String)) :
    (rows.map (fun r => (memberOf S columns r, diagnosticsOf S columns r))).map
      (fun r => r.1.Callsign) = rows.map (rowCallsign S columns) := by
  simp [List.map_map, Function.comp_def, memberOf]

/-- C3: for every header, every pre-existing key set and every CSV whose rows are
read without index fault, the loop runs to the end and: a row is classified as a
duplicate (skipped) exactly when an earlier row has the same trimmed, uppercased
callsign; the Members sent to the writers are those of the rows that are not
duplicates, in order, one per distinct callsign; the duplicates set is the set of
callsigns that occur in two or more rows; and the classes are those obtained by
testing the seen-this-batch set before the index taken at upload start. -/
theorem duplicate_detection (S : StringsPkg) (header : List String)
    (rows : List (List String)) (index : Finset Key)
    (hrows : ∀ r ∈ rows, (buildMember S (buildColumns header) r).isSome = true) :
    ∃ classes st,
      ingest S (buildColumns header) (Ingest.init index) rows = some (classes, st) ∧
      classes.length = rows.length ∧
      (∀ i (hi : i < rows.length),
        classes[i]? = some RowClass.duplicate ↔
          ∃ j, j < i ∧ (rows[j]?).map (rowCallsign S (buildColumns header)) =
            some (rowCallsign S (buildColumns header) rows[i])) ∧
      st.queue = ((rows.zip classes).filter (fun p => p.2 ≠ RowClass.duplicate)).map
        (fun p => memberOf S (buildColumns header) p.1) ∧
      (st.queue.map (fun m => m.Callsign)).Nodup ∧
      (st.queue.map (fun m => m.Callsign)).toFinset =
        (rows.map (rowCallsign S (buildColumns header))).toFinset ∧
      st.duplicates = repeated (rows.map (rowCallsign S (buildColumns header))) ∧
      classes = specClasses ∅ index (rows.map (rowCallsign S (buildColumns header))) := by
  have hing := ingest_of_no_fault S (buildColumns header) rows (Ingest.init index) hrows
  refine ⟨_, _, hing, ?_, ?_, ?_, ?_, ?_, ?_, ?_⟩
  all_goals
    obtain ⟨i2, i3, i4, i5, i6, i7, i8⟩ := classifyAll_spec
      (rows.map (fun r => (memberOf S (buildColumns header) r,
        diagnosticsOf S (buildColumns header) r))) (Ingest.init index)
      (Ingest.init_disjoint index)
    rw [callsigns_of_built] at i2 i3 i4 i6 i7 i8
    have hfo := firstOccurrencesFrom_spec
      ((rows.map (fun r => (memberOf S (buildColumns header) r,
        diagnosticsOf S (buildColumns header) r))).map (fun r => r.1)) ∅
    have hmap : ((rows.map (fun r => (memberOf S (buildColumns header) r,
        diagnosticsOf S (buildColumns header) r))).map (fun r => r.1)).map
        (fun m => m.Callsign) = rows.map (rowCallsign S (buildColumns header)) := by
      simp [List.map_map, Function.comp_def, memberOf]
    simp only [(Ingest.init_fields index).1, (Ingest.init_fields index).2.1,
      (Ingest.init_fields index).2.2.1, (Ingest.init_fields index).2.2.2.1,
      (Ingest.init_fields index).2.2.2.2.1, (Ingest.init_fields index).2.2.2.2.2]
      at i2 i3 i4 i5 i6 i7 i8
  · simp [classifyAll_length]
  · intro i hi
    rw [i2]
    have hlen : i < (rows.map (rowCallsign S (buildColumns header))).length := by simpa using hi
    rw [specClasses_duplicate_iff index _ ∅ i hlen]
    simp
  · rw [classifyAll_queue]
    simp only [(Ingest.init_fields index).2.2.2.2.2, List.nil_append]
    rw [List.zip_map_left, List.filter_map, List.map_map]
    rfl
  · rw [i5]; simpa using hfo.1
  · rw [i5, List.nil_append, hfo.2.1, hmap]; simp
  · rw [i6]; simp [repeated]
  · exact i2

/-- C3, at a CSV whose second row repeats the callsign of the first in another case. -/
theorem duplicate_detection_witness :
    ∃ classes st,
      ingest asciiStrings (buildColumns ["CALL"]) (Ingest.init ∅)
        [["w1abc"], [" W1ABC "], ["k2xyz"]] = some (classes, st) ∧ classes.length = 3 :=
  let ⟨classes, st, h1, h2, _⟩ := duplicate_detection asciiStrings ["CALL"]
    [["w1abc"], [" W1ABC "], ["k2xyz"]] ∅ (by decide)
  ⟨classes, st, h1, h2⟩

theorem unmatched_eq (index : Finset Key) (cs : List String) :
    index \ cs.toFinset.image NewKey = index.filter (fun k => ∀ c ∈ cs, NewKey c ≠ k) := by
  ext k
  simp only [Finset.mem_sdiff, Finset.mem_image, List.mem_toFinset, Finset.mem_filter,
    not_exists, not_and]

/-- The state of the loop after a CSV without fault, from the index `index`. -/
theorem ingest_final (S : StringsPkg) (columns : ColumnMap) (rows : List (List String))
    (index : Finset Key) (hrows : ∀ r ∈ rows, (buildMember S columns r).isSome = true) :
    ∃ classes st,
      ingest S columns (Ingest.init index) rows = some (classes, st) ∧
      st.existing = index.filter (fun k => ∀ c ∈ rows.map (rowCallsign S columns), NewKey c ≠ k) ∧
      st.queue = firstOccurrences (rows.map (memberOf S columns)) ∧
      st.duplicates = repeated (rows.map (rowCallsign S columns)) ∧
      st.added = ((rows.map (rowCallsign S columns)).toFinset.filter
        (fun c => NewKey c ∉ index)).card ∧
      st.updated = ((rows.map (rowCallsign S columns)).toFinset.filter
        (fun c => NewKey c ∈ index)).card := by
  refine ⟨_, _, ingest_of_no_fault S columns rows (Ingest.init index) hrows, ?_⟩
  obtain ⟨_, _, i4, i5, i6, i7, i8⟩ := classifyAll_spec
    (rows.map (fun r => (memberOf S columns r, diagnosticsOf S columns r))) (Ingest.init index)
    (Ingest.init_disjoint index)
  rw [callsigns_of_built] at i4 i6 i7 i8
  simp only [(Ingest.init_fields index).1, (Ingest.init_fields index).2.1,
    (Ingest.init_fields index).2.2.1, (Ingest.init_fields index).2.2.2.1,
    (Ingest.init_fields index).2.2.2.2.1, (Ingest.init_fields index).2.2.2.2.2]
    at i4 i5 i6 i7 i8
  refine ⟨by rw [i4, unmatched_eq], ?_, by rw [i6]; simp [repeated], by rw [i7]; simp,
    by rw [i8]; simp⟩
  rw [i5]
  simp [firstOccurrences, List.map_map, Function.comp_def]

/-- C2: when no row faults and the bulk delete of the unmatched keys succeeds, the
upload runs to completion and its report counts, as added, the distinct callsigns
of the CSV whose key was not in the index at upload start; as updated, those
whose key was in it; as deleted, the index keys that no row matches. So added
plus updated is the number of distinct callsigns, and updated plus deleted is the
number of pre-existing keys. -/
theorem final_report_counts (S : StringsPkg) (env : Env) (store : Store)
    (header : List String) (rows : List (List String))
    (hrows : ∀ r ∈ rows, (buildMember S (buildColumns header) r).isSome = true)
    (hdel : env.deleteErr (store.keys.filter
      (fun k => ∀ c ∈ rows.map (rowCallsign S (buildColumns header)), NewKey c ≠ k)) = none) :
    ∃ store2 resp sum,
      update S env store header rows = some (store2, resp) ∧
      resp.result = Except.ok sum ∧
      resp.deleting = store.keys.filter
        (fun k => ∀ c ∈ rows.map (rowCallsign S (buildColumns header)), NewKey c ≠ k) ∧
      sum.added = ((rows.map (rowCallsign S (buildColumns header))).toFinset.filter
        (fun c => NewKey c ∉ store.keys)).card ∧
      sum.updated = ((rows.map (rowCallsign S (buildColumns header))).toFinset.filter
        (fun c => NewKey c ∈ store.keys)).card ∧
      sum.deleted = (store.keys.filter
        (fun k => ∀ c ∈ rows.map (rowCallsign S (buildColumns header)), NewKey c ≠ k)).card ∧
      sum.added + sum.updated =
        (rows.map (rowCallsign S (buildColumns header))).toFinset.card ∧
      sum.updated + sum.deleted = store.keys.card := by
  obtain ⟨classes, st, hing, h1, h2, h3, h4, h5⟩ :=
    ingest_final S (buildColumns header) rows store.keys hrows
  have hupd : update S env store header rows =
      some ((runWriters (datastorePut env) store (env.schedule st.queue)).1.DeleteMulti
          st.existing,
        ⟨st.out ++ ((runWriters (datastorePut env) store
            (env.schedule st.queue)).2.flatten).map errorLine, st.existing,
          Except.ok ⟨st.added, st.updated, st.existing.card, st.duplicates⟩⟩) := by
    unfold update
    rw [hing]
    simp only []
    rw [h1, hdel]
  refine ⟨_, _, _, hupd, rfl, h1, h4, h5, by rw [h1], ?_, ?_⟩
  · rw [h4, h5, add_comm]
    exact Finset.filter_card_add_filter_neg_card_eq_card _
  · rw [h5]
    simp only []
    rw [h1, ← unmatched_eq]
    have himg : ((rows.map (rowCallsign S (buildColumns header))).toFinset.filter
        (fun c => NewKey c ∈ store.keys)).card =
        (store.keys ∩ (rows.map (rowCallsign S (buildColumns header))).toFinset.image
          NewKey).card := by
      rw [← Finset.card_image_of_injective _ (fun a b h => (NewKey_inj a b).mp h)]
      congr 1
      ext k
      simp only [Finset.mem_image, Finset.mem_filter, List.mem_toFinset, Finset.mem_inter]
      constructor
      · rintro ⟨c, ⟨hc, hk⟩, rfl⟩; exact ⟨hk, c, hc, rfl⟩
      · rintro ⟨hk, c, hc, rfl⟩; exact ⟨c, ⟨hc, hk⟩, rfl⟩
    rw [himg, Finset.card_inter_add_card_sdiff]

/-! ## The datastore: lemmas -/

theorem Store.mem_keys (s : Store) (k : Key) : k ∈ s.keys ↔ ∃ e ∈ s, e.1 = k := by
  simp [Store.keys]

theorem Store.mem_upsert (s : Store) (k : Key) (m : Member) (e : Key × Member) :
    e ∈ s.upsert k m ↔ e = (k, m) ∨ (e ∈ s ∧ e.1 ≠ k) := by
  simp [Store.upsert]

theorem Store.Get_upsert (s : Store) (k : Key) (m : Member) (k2 : Key) :
    (s.upsert k m).Get k2 = if k2 = k then some m else s.Get k2 := by
  unfold Store.Get Store.upsert
  by_cases h : k2 = k
  · subst h; simp
  · have h2 : ¬ k = k2 := fun e => h e.symm
    rw [if_neg h, List.find?_cons_of_neg _ (by simpa using h2), List.find?_filter]
    congr 2
    funext a
    by_cases ha : a.1 = k2
    · simp [ha, h]
    · simp [ha]

theorem Store.Get_DeleteMulti (s : Store) (ks : Finset Key) (k : Key) :
    (s.DeleteMulti ks).Get k = if k ∈ ks then none else s.Get k := by
  unfold Store.Get Store.DeleteMulti
  rw [List.find?_filter]
  by_cases h : k ∈ ks
  · rw [if_pos h]
    rw [Option.map_eq_none', List.find?_eq_none]
    intro a _
    by_cases ha : a.1 = k
    · simp [ha, h]
    · simp [ha]
  · rw [if_neg h]
    congr 2
    funext a
    by_cases ha : a.1 = k
    · simp [ha, h]
    · simp [ha]

theorem Store.Get_eq_none_iff (s : Store) (k : Key) : s.Get k = none ↔ k ∉ s.keys := by
  unfold Store.Get
  rw [Store.mem_keys]
  simp only [Option.map_eq_none', List.find?_eq_none, decide_eq_true_eq, not_exists, not_and]

theorem Store.Get_eq_some_mem (s : Store) (k : Key) (m : Member) (h : s.Get k = some m) :
    (k, m) ∈ s := by
  unfold Store.Get at h
  cases hf : s.find? (fun e => e.1 = k) with
  | none => simp [hf] at h
  | some e =>
    simp [hf] at h
    have h1 := List.find?_some hf
    have h2 := List.mem_of_find?_eq_some hf
    simp at h1
    rw [← h, ← h1]
    exact h2

theorem Store.allocateID_fresh (s : Store) : (⟨"", s.allocateID⟩ : Key) ∉ s.keys := by
  rw [Store.mem_keys]
  rintro ⟨e, he, hk⟩
  have hle : e.1.intID ≤ (s.map (fun e => e.1.intID)).foldr max 0 :=
    le_foldr_max _ _ (List.mem_map_of_mem _ he)
  rw [hk] at hle
  simp [Store.allocateID] at hle

theorem NewKey_incomplete (c : String) : (NewKey c).Incomplete = true ↔ c = "" := by
  simp [NewKey, Key.Incomplete]

theorem Store.Put_complete (s : Store) (m : Member) (h : m.Callsign ≠ "") :
    s.Put (NewKey m.Callsign) m = s.upsert (NewKey m.Callsign) m := by
  have : (NewKey m.Callsign).Incomplete = false := by
    cases hb : (NewKey m.Callsign).Incomplete with
    | false => rfl
    | true => exact absurd ((NewKey_incomplete _).mp hb) h
  simp [Store.Put, this]

theorem Store.Put_incomplete (s : Store) (m : Member) (h : m.Callsign = "") :
    s.Put (NewKey m.Callsign) m = s.upsert ⟨"", s.allocateID⟩ m := by
  have : (NewKey m.Callsign).Incomplete = true := (NewKey_incomplete _).mpr h
  simp [Store.Put, this]

theorem putAll_cons (s : Store) (m : Member) (ms : List Member) :
    putAll s (m :: ms) = putAll (s.Put (NewKey m.Callsign) m) ms := rfl

/-! ## The write pool on a datastore that accepts every put -/

theorem writeLoop_reliable (env : Env) (h : ∀ k m, env.putErr k m = none) :
    ∀ (ms : List Member) (s : Store) (errors : List String),
      writeLoop (datastorePut env) s ms errors = (putAll s ms, errors) := by
  intro ms
  induction ms with
  | nil => intro s errors; rfl
  | cons m rest ih =>
    intro s errors
    simp only [writeLoop, datastorePut, h]
    rw [ih]
    rfl

theorem putAll_append (s : Store) (a b : List Member) :
    putAll s (a ++ b) = putAll (putAll s a) b := by
  simp [putAll, List.foldl_append]

theorem runWriters_reliable (env : Env) (h : ∀ k m, env.putErr k m = none) :
    ∀ (sched : List (List Member)) (s : Store),
      (runWriters (datastorePut env) s sched).1 = putAll s sched.flatten ∧
      (runWriters (datastorePut env) s sched).2.flatten = [] := by
  intro sched
  induction sched with
  | nil => intro s; simp [runWriters, putAll]
  | cons d rest ih =>
    intro s
    simp only [runWriters, write, writeLoop_reliable env h, List.flatten_cons, putAll_append]
    exact ⟨(ih _).1, by simpa using (ih _).2⟩

/-! ## What the puts of an upload leave in the store -/

theorem Store.keys_subset_upsert (s : Store) (k : Key) (m : Member) :
    s.keys ⊆ (s.upsert k m).keys := by
  intro k2 hk2
  rw [Store.mem_keys] at hk2 ⊢
  obtain ⟨e, he, rfl⟩ := hk2
  by_cases h : e.1 = k
  · exact ⟨(k, m), (Store.mem_upsert _ _ _ _).mpr (Or.inl rfl), h.symm⟩
  · exact ⟨e, (Store.mem_upsert _ _ _ _).mpr (Or.inr ⟨he, h⟩), rfl⟩

theorem put_inv (s0 : Store) (hc : s0.Complete) (done : List Member) (s : Store) (m : Member)
    (h1 : ∀ e ∈ s, OldEntry s0 done e ∨ NewEntry s0 done e)
    (h2 : ∀ m2 ∈ done, ∃ e ∈ s, NewEntry s0 done e ∧ e.2.Callsign = m2.Callsign)
    (h3 : s0.keys ⊆ s.keys) :
    (∀ e ∈ s.Put (NewKey m.Callsign) m,
        OldEntry s0 (done ++ [m]) e ∨ NewEntry s0 (done ++ [m]) e) ∧
    (∀ m2 ∈ done ++ [m], ∃ e ∈ s.Put (NewKey m.Callsign) m,
        NewEntry s0 (done ++ [m]) e ∧ e.2.Callsign = m2.Callsign) ∧
    s0.keys ⊆ (s.Put (NewKey m.Callsign) m).keys := by
  have hmono : ∀ e, NewEntry s0 done e → NewEntry s0 (done ++ [m]) e := by
    rintro e ⟨a, b, c⟩
    exact ⟨List.mem_append_left _ a, b, c⟩
  by_cases hm : m.Callsign = ""
  · -- the key is incomplete: the entity goes under a fresh integer ID
    rw [Store.Put_incomplete s m hm]
    have hfresh := Store.allocateID_fresh s
    have hnew : NewEntry s0 (done ++ [m]) ((⟨"", s.allocateID⟩ : Key), m) :=
      ⟨by simp, by simp [hm], Or.inr ⟨hm, fun h => hfresh (h3 h)⟩⟩
    refine ⟨?_, ?_, fun k hk => Store.keys_subset_upsert _ _ _ (h3 hk)⟩
    · intro e he
      rcases (Store.mem_upsert _ _ _ _).mp he with rfl | ⟨hes, _⟩
      · exact Or.inr hnew
      · rcases h1 e hes with ⟨hold, hne⟩ | hn
        · left
          refine ⟨hold, ?_⟩
          intro m2 hm2
          rcases List.mem_append.mp hm2 with h | h
          · exact hne m2 h
          · simp at h
            subst h
            intro heq
            have hk : e.1 ∈ s0.keys := (Store.mem_keys _ _).mpr ⟨e, hold, rfl⟩
            have := hc e.1 hk
            rw [← heq] at this
            have h2 := (NewKey_incomplete m2.Callsign).mpr hm
            rw [h2] at this
            exact Bool.noConfusion this
        · exact Or.inr (hmono e hn)
    · intro m2 hm2
      rcases List.mem_append.mp hm2 with h | h
      · obtain ⟨e, he, hn, hcs⟩ := h2 m2 h
        refine ⟨e, (Store.mem_upsert _ _ _ _).mpr (Or.inr ⟨he, ?_⟩), hmono e hn, hcs⟩
        intro heq
        exact hfresh ((Store.mem_keys _ _).mpr ⟨e, he, heq⟩)
      · simp at h
        subst h
        exact ⟨_, (Store.mem_upsert _ _ _ _).mpr (Or.inl rfl), hnew, rfl⟩
  · rw [Store.Put_complete s m hm]
    have hnew : NewEntry s0 (done ++ [m]) (NewKey m.Callsign, m) :=
      ⟨by simp, by simp [NewKey], Or.inl rfl⟩
    refine ⟨?_, ?_, fun k hk => Store.keys_subset_upsert _ _ _ (h3 hk)⟩
    · intro e he
      rcases (Store.mem_upsert _ _ _ _).mp he with rfl | ⟨hes, hek⟩
      · exact Or.inr hnew
      · rcases h1 e hes with ⟨hold, hne⟩ | hn
        · left
          refine ⟨hold, ?_⟩
          intro m2 hm2
          rcases List.mem_append.mp hm2 with h | h
          · exact hne m2 h
          · simp at h
            subst h
            exact fun heq => hek heq.symm
        · exact Or.inr (hmono e hn)
    · intro m2 hm2
      rcases List.mem_append.mp hm2 with h | h
      · obtain ⟨e, he, hn, hcs⟩ := h2 m2 h
        by_cases hek : e.1 = NewKey m.Callsign
        · refine ⟨_, (Store.mem_upsert _ _ _ _).mpr (Or.inl rfl), hnew, ?_⟩
          have : e.1.stringID = m.Callsign := by rw [hek]; rfl
          show m.Callsign = m2.Callsign
          rw [← hcs, ← hn.2.1, this]
        · exact ⟨e, (Store.mem_upsert _ _ _ _).mpr (Or.inr ⟨he, hek⟩), hmono e hn, hcs⟩
      · simp at h
        subst h
        exact ⟨_, (Store.mem_upsert _ _ _ _).mpr (Or.inl rfl), hnew, rfl⟩

theorem putAll_inv (s0 : Store) (hc : s0.Complete) :
    ∀ (ms done : List Member) (s : Store),
      (∀ e ∈ s, OldEntry s0 done e ∨ NewEntry s0 done e) →
      (∀ m2 ∈ done, ∃ e ∈ s, NewEntry s0 done e ∧ e.2.Callsign = m2.Callsign) →
      s0.keys ⊆ s.keys →
      (∀ e ∈ putAll s ms, OldEntry s0 (done ++ ms) e ∨ NewEntry s0 (done ++ ms) e) ∧
      (∀ m2 ∈ done ++ ms, ∃ e ∈ putAll s ms,
          NewEntry s0 (done ++ ms) e ∧ e.2.Callsign = m2.Callsign) ∧
      s0.keys ⊆ (putAll s ms).keys := by
  intro ms
  induction ms with
  | nil =>
    intro done s h1 h2 h3
    rw [List.append_nil]
    exact ⟨h1, h2, h3⟩
  | cons m rest ih =>
    intro done s h1 h2 h3
    obtain ⟨p1, p2, p3⟩ := put_inv s0 hc done s m h1 h2 h3
    have := ih (done ++ [m]) _ p1 p2 p3
    rw [putAll_cons]
    have hl : done ++ [m] ++ rest = done ++ m :: rest := by simp
    rw [hl] at this
    exact this

/-- The entities left by the puts of `ms` on a store of complete keys. -/
theorem putAll_entries (s0 : Store) (hc : s0.Complete) (ms : List Member) :
    (∀ e ∈ putAll s0 ms, OldEntry s0 ms e ∨ NewEntry s0 ms e) ∧
    (∀ m ∈ ms, ∃ e ∈ putAll s0 ms, NewEntry s0 ms e ∧ e.2.Callsign = m.Callsign) := by
  have := putAll_inv s0 hc ms [] s0
    (fun e he => Or.inl ⟨he, by simp⟩) (by simp) (fun k hk => hk)
  rw [List.nil_append] at this
  exact ⟨this.1, this.2.1⟩

/-! ## The store after an upload -/

/-- The upload in closed form when no row faults and nothing is rejected. -/
theorem update_reliable (S : StringsPkg) (env : Env) (store : Store) (header : List String)
    (rows : List (List String)) (hrel : env.Reliable)
    (hrows : ∀ r ∈ rows, (buildMember S (buildColumns header) r).isSome = true) :
    ∃ out,
      update S env store header rows =
        some ((putAll store (env.schedule (firstOccurrences
            (rows.map (memberOf S (buildColumns header))))).flatten).DeleteMulti
            (unmatched store.keys (rows.map (rowCallsign S (buildColumns header)))),
          ⟨out, unmatched store.keys (rows.map (rowCallsign S (buildColumns header))),
            Except.ok ⟨((rows.map (rowCallsign S (buildColumns header))).toFinset.filter
                (fun c => NewKey c ∉ store.keys)).card,
              ((rows.map (rowCallsign S (buildColumns header))).toFinset.filter
                (fun c => NewKey c ∈ store.keys)).card,
              (unmatched store.keys (rows.map (rowCallsign S (buildColumns header)))).card,
              repeated (rows.map (rowCallsign S (buildColumns header)))⟩⟩) := by
  obtain ⟨classes, st, hing, h1, h2, h3, h4, h5⟩ :=
    ingest_final S (buildColumns header) rows store.keys hrows
  refine ⟨st.out, ?_⟩
  unfold update
  rw [hing]
  simp only []
  rw [hrel.2, (runWriters_reliable env hrel.1 _ _).1, (runWriters_reliable env hrel.1 _ _).2,
    h1, h2, h3, h4, h5]
  simp [unmatched]

theorem firstOccurrences_callsigns (ms : List Member) :
    ((firstOccurrences ms).map (fun m => m.Callsign)).Nodup ∧
    (∀ m ∈ firstOccurrences ms, m ∈ ms) ∧
    (∀ m ∈ ms, ∃ m2 ∈ firstOccurrences ms, m2.Callsign = m.Callsign) := by
  obtain ⟨h1, h2, h3⟩ := firstOccurrencesFrom_spec ms ∅
  refine ⟨h1, h3, ?_⟩
  intro m hm
  have : m.Callsign ∈ ((firstOccurrencesFrom ∅ ms).map (fun m => m.Callsign)).toFinset := by
    rw [h2]; simp; exact ⟨m, hm, rfl⟩
  simp only [List.mem_toFinset, List.mem_map] at this
  exact this

/-- C1: on a store of complete keys, when no row of the CSV faults, every put and
the bulk delete succeed and every queued Member is taken by one writer, the
upload runs to completion, each distinct callsign of the CSV is counted once as
added or as updated, and the callsigns held by the store afterwards (as fields of
the Members and as string IDs of their keys) are exactly the trimmed, uppercased
callsigns of the data rows; a pre-existing key survives only when it is the key
of a callsign of the CSV, and every non-empty callsign of the CSV is stored under
its own key. -/
theorem store_after_upload (S : StringsPkg) (env : Env) (store : Store)
    (header : List String) (rows : List (List String))
    (hfair : env.Fair) (hrel : env.Reliable) (hc : store.Complete)
    (hrows : ∀ r ∈ rows, (buildMember S (buildColumns header) r).isSome = true) :
    ∃ store2 resp,
      update S env store header rows = some (store2, resp) ∧
      (∃ sum, resp.result = Except.ok sum ∧
        sum.added + sum.updated =
          (rows.map (rowCallsign S (buildColumns header))).toFinset.card) ∧
      store2.callsigns = (rows.map (rowCallsign S (buildColumns header))).toFinset ∧
      store2.keys.image (fun k => k.stringID) =
        (rows.map (rowCallsign S (buildColumns header))).toFinset ∧
      (∀ k ∈ store.keys, k ∈ store2.keys →
        ∃ c ∈ rows.map (rowCallsign S (buildColumns header)), k = NewKey c) ∧
      (∀ c ∈ rows.map (rowCallsign S (buildColumns header)), c ≠ "" →
        NewKey c ∈ store2.keys) := by
  obtain ⟨out, hupd⟩ := update_reliable S env store header rows hrel hrows
  refine ⟨_, _, hupd, ⟨_, rfl, ?_⟩, ?_⟩
  · simp only []
    rw [add_comm]
    exact Finset.filter_card_add_filter_neg_card_eq_card _
  generalize hq : firstOccurrences (rows.map (memberOf S (buildColumns header))) = queue
  generalize ho : (env.schedule queue).flatten = order
  generalize hcs : rows.map (rowCallsign S (buildColumns header)) = cs
  have hperm : order.Perm queue := ho ▸ (hfair queue).2
  obtain ⟨q1, q2, q3⟩ := firstOccurrences_callsigns (rows.map (memberOf S (buildColumns header)))
  rw [hq] at q1 q2 q3
  have hq_cs : ∀ m ∈ order, m.Callsign ∈ cs := by
    intro m hm
    have := q2 m (hperm.mem_iff.mp hm)
    simp only [List.mem_map] at this
    obtain ⟨r, hr, rfl⟩ := this
    rw [← hcs]
    exact List.mem_map.mpr ⟨r, hr, rfl⟩
  have hcs_q : ∀ c ∈ cs, ∃ m ∈ order, m.Callsign = c := by
    intro c hcmem
    rw [← hcs] at hcmem
    obtain ⟨r, hr, rfl⟩ := List.mem_map.mp hcmem
    obtain ⟨m2, hm2, he⟩ := q3 (memberOf S (buildColumns header) r) (List.mem_map_of_mem _ hr)
    exact ⟨m2, hperm.mem_iff.mpr hm2, he⟩
  obtain ⟨A, B⟩ := putAll_entries store hc order
  have hmem : ∀ e, e ∈ (putAll store order).DeleteMulti (unmatched store.keys cs) ↔
      e ∈ putAll store order ∧ e.1 ∉ unmatched store.keys cs := by
    intro e; simp [Store.DeleteMulti]
  have K1 : ∀ e ∈ (putAll store order).DeleteMulti (unmatched store.keys cs),
      NewEntry store order e := by
    intro e he
    obtain ⟨he1, he2⟩ := (hmem e).mp he
    rcases A e he1 with ⟨hold, hne⟩ | hn
    · exfalso
      apply he2
      simp only [unmatched, Finset.mem_filter]
      refine ⟨(Store.mem_keys _ _).mpr ⟨e, hold, rfl⟩, ?_⟩
      intro c hcmem
      obtain ⟨m, hm, rfl⟩ := hcs_q c hcmem
      exact hne m hm
    · exact hn
  have K2 : ∀ e ∈ putAll store order, NewEntry store order e →
      e ∈ (putAll store order).DeleteMulti (unmatched store.keys cs) := by
    intro e he hn
    refine (hmem e).mpr ⟨he, ?_⟩
    simp only [unmatched, Finset.mem_filter, not_and, not_forall, not_not]
    intro hk
    rcases hn.2.2 with h | ⟨_, h⟩
    · exact ⟨e.2.Callsign, hq_cs _ hn.1, h.symm⟩
    · exact absurd hk h
  refine ⟨?_, ?_, ?_, ?_⟩
  · ext c
    simp only [Store.callsigns, List.mem_toFinset, List.mem_map]
    constructor
    · rintro ⟨e, he, rfl⟩
      exact hq_cs _ (K1 e he).1
    · intro hcmem
      obtain ⟨m, hm, rfl⟩ := hcs_q c hcmem
      obtain ⟨e, he, hn, hce⟩ := B m hm
      exact ⟨e, K2 e he hn, hce⟩
  · ext c
    simp only [Finset.mem_image, Store.mem_keys, List.mem_toFinset]
    constructor
    · rintro ⟨k, ⟨e, he, rfl⟩, rfl⟩
      rw [(K1 e he).2.1]
      exact hq_cs _ (K1 e he).1
    · intro hcmem
      obtain ⟨m, hm, rfl⟩ := hcs_q c hcmem
      obtain ⟨e, he, hn, hce⟩ := B m hm
      exact ⟨e.1, ⟨e, K2 e he hn, rfl⟩, by rw [hn.2.1, hce]⟩
  · intro k hk hk2
    obtain ⟨e, he, rfl⟩ := (Store.mem_keys _ _).mp hk2
    rcases (K1 e he).2.2 with h | ⟨_, h⟩
    · exact ⟨e.2.Callsign, hq_cs _ (K1 e he).1, h⟩
    · exact absurd hk h
  · intro c hcmem hne
    obtain ⟨m, hm, rfl⟩ := hcs_q c hcmem
    obtain ⟨e, he, hn, hce⟩ := B m hm
    rw [Store.mem_keys]
    refine ⟨e, K2 e he hn, ?_⟩
    rcases hn.2.2 with h | ⟨h, _⟩
    · rw [h, hce]
    · exact absurd (hce ▸ h) hne

/-! ## Uploading the same CSV twice -/

theorem putAll_Get :
    ∀ (ms : List Member) (s : Store), (∀ m ∈ ms, m.Callsign ≠ "") →
      (∀ m1 ∈ ms, ∀ m2 ∈ ms, m1.Callsign = m2.Callsign → m1 = m2) →
      ∀ k, (∀ m ∈ ms, NewKey m.Callsign = k → (putAll s ms).Get k = some m) ∧
        ((∀ m ∈ ms, NewKey m.Callsign ≠ k) → (putAll s ms).Get k = s.Get k) := by
  intro ms
  induction ms with
  | nil => intro s _ _ k; simp [putAll]
  | cons m rest ih =>
    intro s hne huniq k
    have hne2 : ∀ m2 ∈ rest, m2.Callsign ≠ "" := fun m2 h => hne m2 (List.mem_cons_of_mem _ h)
    have huniq2 : ∀ m1 ∈ rest, ∀ m2 ∈ rest, m1.Callsign = m2.Callsign → m1 = m2 :=
      fun m1 h1 m2 h2 => huniq m1 (List.mem_cons_of_mem _ h1) m2 (List.mem_cons_of_mem _ h2)
    rw [putAll_cons, Store.Put_complete s m (hne m (List.mem_cons_self _ _))]
    obtain ⟨ih1, ih2⟩ := ih (s.upsert (NewKey m.Callsign) m) hne2 huniq2 k
    constructor
    · intro m2 hm2 hk
      by_cases hin : m2 ∈ rest
      · exact ih1 m2 hin hk
      · have hm : m2 = m := by
          rcases List.mem_cons.mp hm2 with h | h
          · exact h
          · exact absurd h hin
        subst hm
        have hnone : ∀ m3 ∈ rest, NewKey m3.Callsign ≠ k := by
          intro m3 hm3 hk3
          have hcs : m3.Callsign = m2.Callsign := (NewKey_inj _ _).mp (hk3.trans hk.symm)
          have := huniq m3 (List.mem_cons_of_mem _ hm3) m2 (List.mem_cons_self _ _) hcs
          exact hin (this ▸ hm3)
        rw [ih2 hnone, Store.Get_upsert, if_pos hk.symm]
    · intro hnone
      have h1 : ∀ m3 ∈ rest, NewKey m3.Callsign ≠ k :=
        fun m3 h => hnone m3 (List.mem_cons_of_mem _ h)
      have h2 : k ≠ NewKey m.Callsign := fun e => hnone m (List.mem_cons_self _ _) e.symm
      rw [ih2 h1, Store.Get_upsert, if_neg h2]

/-- The entity under each key after an upload of non-empty callsigns in which
nothing is rejected: the Member of the queue with that key, and nothing else. -/
theorem Get_after_upload (s0 : Store) (queue order : List Member) (cs : List String)
    (hperm : order.Perm queue) (hne : ∀ m ∈ queue, m.Callsign ≠ "")
    (hnodup : (queue.map (fun m => m.Callsign)).Nodup)
    (hq_cs : ∀ m ∈ queue, m.Callsign ∈ cs)
    (hcs_q : ∀ c ∈ cs, ∃ m ∈ queue, m.Callsign = c) (k : Key) :
    (∀ m ∈ queue, NewKey m.Callsign = k →
      ((putAll s0 order).DeleteMulti (unmatched s0.keys cs)).Get k = some m) ∧
    ((∀ m ∈ queue, NewKey m.Callsign ≠ k) →
      ((putAll s0 order).DeleteMulti (unmatched s0.keys cs)).Get k = none) := by
  have huniq : ∀ m1 ∈ order, ∀ m2 ∈ order, m1.Callsign = m2.Callsign → m1 = m2 := by
    intro m1 h1 m2 h2 he
    exact List.inj_on_of_nodup_map hnodup (hperm.mem_iff.mp h1) (hperm.mem_iff.mp h2) he
  have hne2 : ∀ m ∈ order, m.Callsign ≠ "" := fun m h => hne m (hperm.mem_iff.mp h)
  obtain ⟨g1, g2⟩ := putAll_Get order s0 hne2 huniq k
  rw [Store.Get_DeleteMulti]
  constructor
  · intro m hm hk
    have hnot : k ∉ unmatched s0.keys cs := by
      simp only [unmatched, Finset.mem_filter, not_and, not_forall, not_not]
      intro _
      exact ⟨m.Callsign, hq_cs m hm, hk⟩
    rw [if_neg hnot]
    exact g1 m (hperm.mem_iff.mpr hm) hk
  · intro hnone
    by_cases hk : k ∈ unmatched s0.keys cs
    · rw [if_pos hk]
    · rw [if_neg hk, g2 (fun m hm => hnone m (hperm.mem_iff.mp hm)), Store.Get_eq_none_iff]
      intro hkeys
      apply hk
      simp only [unmatched, Finset.mem_filter]
      refine ⟨hkeys, ?_⟩
      intro c hc
      obtain ⟨m, hm, rfl⟩ := hcs_q c hc
      exact hnone m hm

/-- C4: when no row of the CSV faults, every callsign of the CSV is non-empty, and in
both runs nothing is rejected and every queued Member is taken by one writer,
uploading the CSV on any store and then uploading it again on the store left by
the first run makes the second run report zero added, as many updated as the CSV
has distinct callsigns and zero deleted, and leaves the same keys with the same
Member under each. -/
theorem upload_idempotent (S : StringsPkg) (env1 env2 : Env) (store : Store)
    (header : List String) (rows : List (List String))
    (hfair1 : env1.Fair) (hrel1 : env1.Reliable) (hfair2 : env2.Fair) (hrel2 : env2.Reliable)
    (hrows : ∀ r ∈ rows, (buildMember S (buildColumns header) r).isSome = true)
    (hne : ∀ r ∈ rows, rowCallsign S (buildColumns header) r ≠ "") :
    ∃ store1 resp1 store2 resp2,
      update S env1 store header rows = some (store1, resp1) ∧
      update S env2 store1 header rows = some (store2, resp2) ∧
      resp2.result = Except.ok
        ⟨0, (rows.map (rowCallsign S (buildColumns header))).toFinset.card, 0,
          repeated (rows.map (rowCallsign S (buildColumns header)))⟩ ∧
      resp2.deleting = ∅ ∧
      store2.keys = store1.keys ∧
      ∀ k, store2.Get k = store1.Get k := by
  obtain ⟨out1, hupd1⟩ := update_reliable S env1 store header rows hrel1 hrows
  have H2 := fun s => update_reliable S env2 s header rows hrel2 hrows
  obtain ⟨q1, q2, q3⟩ :=
    firstOccurrences_callsigns (rows.map (memberOf S (buildColumns header)))
  have hq_cs : ∀ m ∈ firstOccurrences (rows.map (memberOf S (buildColumns header))),
      m.Callsign ∈ rows.map (rowCallsign S (buildColumns header)) := by
    intro m hm
    obtain ⟨r, hr, rfl⟩ := List.mem_map.mp (q2 m hm)
    exact List.mem_map.mpr ⟨r, hr, rfl⟩
  have hcs_q : ∀ c ∈ rows.map (rowCallsign S (buildColumns header)),
      ∃ m ∈ firstOccurrences (rows.map (memberOf S (buildColumns header))),
        m.Callsign = c := by
    intro c hcmem
    obtain ⟨r, hr, rfl⟩ := List.mem_map.mp hcmem
    exact q3 (memberOf S (buildColumns header) r) (List.mem_map_of_mem _ hr)
  have hne_q : ∀ m ∈ firstOccurrences (rows.map (memberOf S (buildColumns header))),
      m.Callsign ≠ "" := by
    intro m hm
    obtain ⟨r, hr, rfl⟩ := List.mem_map.mp (q2 m hm)
    exact hne r hr
  have hp1 := (hfair1 (firstOccurrences (rows.map (memberOf S (buildColumns header))))).2
  have hp2 := (hfair2 (firstOccurrences (rows.map (memberOf S (buildColumns header))))).2
  generalize firstOccurrences (rows.map (memberOf S (buildColumns header))) = queue at *
  generalize rows.map (rowCallsign S (buildColumns header)) = cs at *
  have G1 := Get_after_upload store queue _ cs hp1 hne_q q1 hq_cs hcs_q
  generalize (putAll store (env1.schedule queue).flatten).DeleteMulti
    (unmatched store.keys cs) = store1 at *
  have G2 := Get_after_upload store1 queue _ cs hp2 hne_q q1 hq_cs hcs_q
  obtain ⟨out2, hupd2⟩ := H2 store1
  have hkeys1 : ∀ c ∈ cs, NewKey c ∈ store1.keys := by
    intro c hc
    obtain ⟨m, hm, rfl⟩ := hcs_q c hc
    by_contra hk
    have := (G1 (NewKey m.Callsign)).1 m hm rfl
    rw [(Store.Get_eq_none_iff _ _).mpr hk] at this
    exact Option.noConfusion this
  have hD : unmatched store1.keys cs = ∅ := by
    rw [Finset.eq_empty_iff_forall_not_mem]
    intro k hk
    simp only [unmatched, Finset.mem_filter] at hk
    have hnone := (G1 k).2 (fun m hm => hk.2 m.Callsign (hq_cs m hm))
    exact (Store.Get_eq_none_iff _ _).mp hnone hk.1
  have hA : (cs.toFinset.filter (fun c => NewKey c ∉ store1.keys)).card = 0 := by
    rw [Finset.card_eq_zero, Finset.filter_false_of_mem]
    intro c hc
    simpa using hkeys1 c (List.mem_toFinset.mp hc)
  have hU : (cs.toFinset.filter (fun c => NewKey c ∈ store1.keys)).card = cs.toFinset.card := by
    rw [Finset.filter_true_of_mem]
    intro c hc
    exact hkeys1 c (List.mem_toFinset.mp hc)
  have hget : ∀ k, ((putAll store1 (env2.schedule queue).flatten).DeleteMulti
      (unmatched store1.keys cs)).Get k = store1.Get k := by
    intro k
    by_cases h : ∃ m ∈ queue, NewKey m.Callsign = k
    · obtain ⟨m, hm, hk⟩ := h
      rw [(G2 k).1 m hm hk, (G1 k).1 m hm hk]
    · have h2 : ∀ m ∈ queue, NewKey m.Callsign ≠ k := fun m hm hk => h ⟨m, hm, hk⟩
      rw [(G2 k).2 h2, (G1 k).2 h2]
  refine ⟨_, _, _, _, hupd1, hupd2, ?_, hD, ?_, hget⟩
  · simp only [hA, hU, hD, Finset.card_empty]
  · ext k
    have h1 := Store.Get_eq_none_iff
      ((putAll store1 (env2.schedule queue).flatten).DeleteMulti (unmatched store1.keys cs)) k
    have h2 := Store.Get_eq_none_iff store1 k
    rw [hget k] at h1
    exact not_iff_not.mp (h1.symm.trans h2)

/-! ## The example of the specification -/

theorem quietEnv_fair : quietEnv.Fair := by
  intro q
  constructor
  · simp [quietEnv, NUM_WRITERS]
  · have : (List.replicate (NUM_WRITERS - 1) ([] : List Member)).flatten = [] := by
      simp [NUM_WRITERS]
    simp [quietEnv, this]

theorem quietEnv_reliable : quietEnv.Reliable :=
  ⟨fun _ _ => rfl, fun _ => rfl⟩

/-- C1, at the example: `W1ABC` uploaded on a store that holds `K2XYZ`. -/
theorem store_after_upload_witness :
    ∃ store2 resp,
      update asciiStrings quietEnv exampleStore exampleHeader exampleRows =
        some (store2, resp) ∧
      store2.callsigns =
        (exampleRows.map (rowCallsign asciiStrings (buildColumns exampleHeader))).toFinset :=
  let ⟨store2, resp, h1, _, h2, _⟩ := store_after_upload asciiStrings quietEnv exampleStore
    exampleHeader exampleRows quietEnv_fair quietEnv_reliable
    (by unfold Store.Complete; decide) (by decide)
  ⟨store2, resp, h1, h2⟩

/-- C2, at the example: one row, one pre-existing key that the row does not match. -/
theorem final_report_counts_witness :
    ∃ store2 resp sum,
      update asciiStrings quietEnv exampleStore exampleHeader exampleRows =
        some (store2, resp) ∧
      resp.result = Except.ok sum ∧
      sum.updated + sum.deleted = exampleStore.keys.card :=
  let ⟨store2, resp, sum, h1, h2, _, _, _, _, _, h3⟩ := final_report_counts asciiStrings
    quietEnv exampleStore exampleHeader exampleRows (by decide) rfl
  ⟨store2, resp, sum, h1, h2, h3⟩

/-- C4, at the example: the second upload of the same CSV deletes nothing. -/
theorem upload_idempotent_witness :
    ∃ store1 resp1 store2 resp2,
      update asciiStrings quietEnv exampleStore exampleHeader exampleRows =
        some (store1, resp1) ∧
      update asciiStrings quietEnv store1 exampleHeader exampleRows = some (store2, resp2) ∧
      resp2.deleting = ∅ ∧ ∀ k, store2.Get k = store1.Get k :=
  let ⟨store1, resp1, store2, resp2, h1, h2, _, h3, _, h4⟩ := upload_idempotent asciiStrings
    quietEnv quietEnv exampleStore exampleHeader exampleRows quietEnv_fair quietEnv_reliable
    quietEnv_fair quietEnv_reliable (by decide) (by decide)
  ⟨store1, resp1, store2, resp2, h1, h2, h3, h4⟩

/-- C8, at a request for an unknown callsign in the default format. -/
theorem lookup_response_witness :
    lookup asciiStrings ⟨fun _ => Except.ok "", fun _ => ("", none)⟩ exampleStore
      ⟨"w1abc", "", ""⟩ = [Written.body lookupNotFoundPage] :=
  (lookup_response asciiStrings ⟨fun _ => Except.ok "", fun _ => ("", none)⟩ exampleStore
    ⟨"w1abc", "", ""⟩).2.1 (by decide) (by decide)

/-- The example of the specification: `W1ABC` uploaded on a store that holds `K2XYZ`
leaves `W1ABC` alone in the store and reports "Added 1, updated 0, deleted 1". -/
theorem example_report :
    (update asciiStrings quietEnv exampleStore exampleHeader exampleRows).map
      (fun r => (r.1.keys, r.2.counts)) = some ({NewKey "W1ABC"}, some (1, 0, 1)) := by
  decide

/-- A row with an empty callsign is stored under a key with a fresh integer ID, so
uploading it a second time adds it again and deletes the entity of the first run. -/
theorem empty_callsign_uploaded_twice :
    ((update asciiStrings quietEnv [] ["CALL"] [[""]]).bind
      (fun r1 => (update asciiStrings quietEnv r1.1 ["CALL"] [[""]]).map
        (fun r2 => (r1.1.keys, r2.1.keys, r2.2.counts)))) =
      some ({⟨"", 1⟩}, {⟨"", 2⟩}, some (1, 0, 1)) := by
  decide

end CallsignLookup
